import Mathlib

/-!
# Verification of the polis-wassette component lifecycle and capability engine

This file embeds the parts of the polis-wassette sources that the checked
claims are about, and proves (or refutes) each claim against that embedding.

Embedded subsystems:
* component storage: artifact paths, removal of on-disk artifacts, and
  validation stamps (crates/wassette/src/component_storage.rs);
* provisioning manifest model and validation (src/manifest.rs);
* policy synthesis from inline manifest permissions
  (src/permission_synthesis.rs), over a model of the policy crate;
* the hook pipeline and the MCP dispatcher of the mcp-server crate
  (crates/mcp-server/src/hooks.rs, crates/mcp-server/src/server.rs);
* the polis-middleware chain and list-tools dispatch
  (crates/polis-middleware/src/middleware.rs, server.rs).

Conventions: machine integers are modeled as Nat (no overflow is relevant to
any claim), JSON values are modeled as opaque strings, file contents are byte
lists, and the asynchronous effects of the Rust sources are modeled by
explicit state passing.  SHA-256 is modeled as an injective digest of the
file content (the standard collision-freedom idealization); the sha2 crate is
external to the repository.
-/

namespace Wassette

/-- A JSON value, modeled opaquely by its textual rendering.  The claims never
inspect the inside of a JSON value. -/
abbrev JsonValue := String

/-! ## Component storage: on-disk layout

From crates/wassette/src/component_storage.rs.  The path-constructor
functions mirror component_path, metadata_path, precompiled_path and
policy_path; the extension constants METADATA_EXT and PRECOMPILED_EXT live in
the wassette crate root, which is not under src/, so their values are taken
from the filesystem layout in the specification (.meta.json and
.precompiled). -/

/-- Path of the raw component bytes: component_path. -/
def component_path (component_id : String) : String :=
  component_id ++ ".wasm"

/-- Path of the metadata JSON: metadata_path. -/
def metadata_path (component_id : String) : String :=
  component_id ++ ".meta.json"

/-- Path of the precompiled cache file: precompiled_path. -/
def precompiled_path (component_id : String) : String :=
  component_id ++ ".precompiled"

/-- Path of the policy document: policy_path. -/
def policy_path (component_id : String) : String :=
  component_id ++ ".policy.yaml"

/-- Observable state of a path when a removal is attempted: the file is
present, already absent, or removing it fails with an IO error other than
NotFound. -/
inductive FileRemovalState where
  | present
  | absent
  | ioError
deriving DecidableEq, Repr

/-- A snapshot of the filesystem as seen by removal: what each path does when
tokio fs remove_file is called on it. -/
abbrev RemovalFs := String → FileRemovalState

/-- ComponentStorage.remove_if_exists: removing a present file succeeds, a
NotFound error is swallowed (the file being already absent is not an error),
and any other IO error is surfaced. -/
def remove_if_exists (fs : RemovalFs) (path : String) : Except String Unit :=
  match fs path with
  | .present => .ok ()
  | .absent => .ok ()
  | .ioError => .error ("Failed to remove " ++ path)

/-- ComponentStorage.remove_component_artifacts: attempts to remove, in
program order, the component file, then the metadata file, then the
precompiled file, stopping at the first surfaced error.  The returned list is
the sequence of paths on which a removal was attempted, in order. -/
def remove_component_artifacts (fs : RemovalFs) (component_id : String) :
    List String × Except String Unit :=
  let p1 := component_path component_id
  match remove_if_exists fs p1 with
  | .error e => ([p1], .error e)
  | .ok () =>
    let p2 := metadata_path component_id
    match remove_if_exists fs p2 with
    | .error e => ([p1, p2], .error e)
    | .ok () =>
      let p3 := precompiled_path component_id
      match remove_if_exists fs p3 with
      | .error e => ([p1, p2, p3], .error e)
      | .ok () => ([p1, p2, p3], .ok ())

/-- The deletion order asserted by the claim: metadata first, then
precompiled, then policy, then wasm last. -/
def claimedRemovalOrder (component_id : String) : List String :=
  [metadata_path component_id, precompiled_path component_id,
   policy_path component_id, component_path component_id]

/-! ## Component storage: validation stamps

From crates/wassette/src/component_storage.rs (create_validation_stamp,
validate_stamp, compute_file_hash). -/

/-- A file on disk: its content bytes and its modification time in Unix
seconds.  The size reported by fs metadata is the length of the content. -/
structure FileInfo where
  content : List Nat
  mtime : Nat
deriving DecidableEq, Repr

/-- fs metadata len(): the file size. -/
def FileInfo.size (f : FileInfo) : Nat := f.content.length

/-- A filesystem snapshot for stamping: none models a path whose metadata
read fails (missing file). -/
abbrev StampFs := String → Option FileInfo

/-- compute_file_hash: SHA-256 of the file content.  Modeled as an injective
digest of the content (collision-freedom idealization of SHA-256; the sha2
crate is external to the repository). -/
def compute_file_hash (content : List Nat) : List Nat := content

/-- ValidationStamp from the wassette crate: size, mtime, optional content
hash. -/
structure ValidationStamp where
  file_size : Nat
  mtime : Nat
  content_hash : Option (List Nat)
deriving DecidableEq, Repr

/-- ComponentStorage.create_validation_stamp: reads metadata at the path and
records size and mtime, plus the content hash when include_hash is set. -/
def create_validation_stamp (fs : StampFs) (path : String) (include_hash : Bool) :
    Except String ValidationStamp :=
  match fs path with
  | none => .error ("Failed to read metadata for " ++ path)
  | some fi =>
    .ok { file_size := fi.size
          mtime := fi.mtime
          content_hash := if include_hash then some (compute_file_hash fi.content) else none }

/-- ComponentStorage.validate_stamp: metadata read failure is false; a size
mismatch is false; when the stamp carries a content hash the function returns
the hash comparison (and never reaches the mtime comparison); otherwise the
mtime is compared. -/
def validate_stamp (fs : StampFs) (path : String) (stamp : ValidationStamp) : Bool :=
  match fs path with
  | none => false
  | some fi =>
    if fi.size ≠ stamp.file_size then false
    else
      match stamp.content_hash with
      | some expected => compute_file_hash fi.content = expected
      | none => fi.mtime = stamp.mtime

/-- The validity condition asserted by claim C4: size, mtime, and (when
present) hash must all match the current file. -/
def claimC4Matches (fs : StampFs) (path : String) (stamp : ValidationStamp) : Bool :=
  match fs path with
  | none => false
  | some fi =>
    fi.size == stamp.file_size && fi.mtime == stamp.mtime &&
      (match stamp.content_hash with
       | some h => compute_file_hash fi.content == h
       | none => true)

end Wassette

namespace Manifest

/-! ## Provisioning manifest model

From src/src/manifest.rs: the data model of the provisioning manifest and
its pure validation. -/

/-- Storage access type (AccessType in manifest.rs). -/
inductive AccessType where
  | read
  | write
deriving DecidableEq, Repr

/-- Network access rule. -/
structure NetworkRule where
  host : String
deriving DecidableEq, Repr

/-- Network access permissions. -/
structure NetworkPermissions where
  allow : List NetworkRule
deriving DecidableEq, Repr

/-- Storage access rule. -/
structure StorageRule where
  uri : String
  access : List AccessType
deriving DecidableEq, Repr

/-- Storage access permissions. -/
structure StoragePermissions where
  allow : List StorageRule
deriving DecidableEq, Repr

/-- Environment variable rule. -/
structure EnvironmentRule where
  key : String
  value_from : Option String
deriving DecidableEq, Repr

/-- Environment variable permissions. -/
structure EnvironmentPermissions where
  allow : List EnvironmentRule
deriving DecidableEq, Repr

/-- Resource limits (deferred to post-MVP in the source). -/
structure ResourceLimits where
  memory_bytes : Option Nat
  cpu_time_ms : Option Nat
deriving DecidableEq, Repr

/-- Backoff strategy for retries. -/
inductive BackoffStrategy where
  | exponential (base_ms : Nat)
  | linear (increment_ms : Nat)
deriving DecidableEq, Repr

/-- Retry policy (deferred to post-MVP in the source). -/
structure RetryPolicy where
  attempts : Nat
  backoff : BackoffStrategy
deriving DecidableEq, Repr

/-- Inline permission declarations. -/
structure InlinePermissions where
  network : Option NetworkPermissions
  storage : Option StoragePermissions
  environment : Option EnvironmentPermissions
  resources : Option ResourceLimits
deriving DecidableEq, Repr

/-- Component declaration in the manifest. -/
structure ComponentDeclaration where
  uri : String
  name : Option String
  digest : Option String
  permissions : InlinePermissions
  retry_policy : Option RetryPolicy
deriving DecidableEq, Repr

/-- Provisioning manifest for headless deployment mode. -/
structure ProvisioningManifest where
  version : Nat
  components : List ComponentDeclaration
deriving DecidableEq, Repr

/-- Rust is_ascii_hexdigit. -/
def isAsciiHexdigit (c : Char) : Bool :=
  c.isDigit || ('a' ≤ c && c ≤ 'f') || ('A' ≤ c && c ≤ 'F')

/-- Rust str::starts_with, modeled on the character list of the string (all
prefixes compared here are ASCII, where bytes and characters coincide). -/
def strStartsWith (s p : String) : Bool := p.data.isPrefixOf s.data

/-- The Rust byte slice digest[7..], modeled on the character list (taken
after the ASCII prefix sha256: has been checked). -/
def strDrop (s : String) (n : Nat) : List Char := s.data.drop n

/-- The four URI schemes accepted by ComponentDeclaration::validate. -/
def validSchemes : List String := ["file://", "oci://", "https://", "http://"]

/-- The per-rule loop of the network-permission validation: bail at the
first empty host. -/
def checkNetworkRules : List NetworkRule → Except String Unit
  | [] => .ok ()
  | r :: rest =>
    if r.host = "" then .error "Network rule host cannot be empty"
    else checkNetworkRules rest

/-- The per-rule loop of the storage-permission validation: bail on an empty
URI, on a URI without the fs:// scheme, or on an empty access set. -/
def checkStorageRules : List StorageRule → Except String Unit
  | [] => .ok ()
  | r :: rest =>
    if r.uri = "" then .error "Storage rule URI cannot be empty"
    else if ¬ strStartsWith r.uri "fs://" then
      .error ("Storage URI must start with fs://. Got: " ++ r.uri)
    else if r.access.isEmpty then
      .error "Storage rule must specify at least one access type (read or write)"
    else checkStorageRules rest

/-- The per-rule loop of the environment-permission validation, threading
the seen-keys set: bail on an empty key or a duplicate key. -/
def checkEnvRules (seen : List String) : List EnvironmentRule → Except String Unit
  | [] => .ok ()
  | r :: rest =>
    if r.key = "" then .error "Environment variable key cannot be empty"
    else if seen.contains r.key then
      .error ("Duplicate environment variable key: " ++ r.key)
    else checkEnvRules (r.key :: seen) rest

/-- The network block of InlinePermissions::validate: a present class must
have a non-empty allow list whose rules all pass. -/
def validateNetworkBlock : Option NetworkPermissions → Except String Unit
  | none => .ok ()
  | some network =>
    if network.allow.isEmpty then
      .error "Network permissions allow list cannot be empty"
    else checkNetworkRules network.allow

/-- The storage block of InlinePermissions::validate. -/
def validateStorageBlock : Option StoragePermissions → Except String Unit
  | none => .ok ()
  | some storage =>
    if storage.allow.isEmpty then
      .error "Storage permissions allow list cannot be empty"
    else checkStorageRules storage.allow

/-- The environment block of InlinePermissions::validate. -/
def validateEnvironmentBlock : Option EnvironmentPermissions → Except String Unit
  | none => .ok ()
  | some env =>
    if env.allow.isEmpty then
      .error "Environment permissions allow list cannot be empty"
    else checkEnvRules [] env.allow

/-- InlinePermissions::validate: at least one class must be declared, then
each present class block is validated in order. -/
def InlinePermissions.validate (p : InlinePermissions) : Except String Unit :=
  if p.network.isNone && p.storage.isNone && p.environment.isNone &&
      p.resources.isNone then
    .error "Inline permissions must specify at least one permission type"
  else
    validateNetworkBlock p.network >>= fun _ =>
      validateStorageBlock p.storage >>= fun _ =>
        validateEnvironmentBlock p.environment

/-- The digest-format check of ComponentDeclaration::validate: a declared
digest must be sha256: followed by exactly 64 hex characters. -/
def validateDigestFormat : Option String → Except String Unit
  | none => .ok ()
  | some digest =>
    if ¬ strStartsWith digest "sha256:" then
      .error ("Digest must be in format sha256:<hex>. Got: " ++ digest)
    else
      let hex_part := strDrop digest 7
      if hex_part.length ≠ 64 then
        .error "SHA-256 digest must be 64 hex characters"
      else if ¬ hex_part.all isAsciiHexdigit then
        .error "SHA-256 digest must contain only hex characters"
      else .ok ()

/-- ComponentDeclaration::validate: non-empty URI with an accepted scheme, a
well-formed digest when declared, then the permission block. -/
def ComponentDeclaration.validate (c : ComponentDeclaration) : Except String Unit :=
  if c.uri = "" then
    .error "Component URI cannot be empty"
  else if ¬ validSchemes.any (fun scheme => strStartsWith c.uri scheme) then
    .error ("Component URI must start with one of the accepted schemes. Got: " ++ c.uri)
  else
    validateDigestFormat c.digest >>= fun _ => c.permissions.validate

/-- The duplicated-URI scan of ProvisioningManifest::validate: a HashSet
insert that reports previously seen URIs. -/
def hasDuplicateUris (seen : List String) : List ComponentDeclaration → Bool
  | [] => false
  | c :: rest => seen.contains c.uri || hasDuplicateUris (c.uri :: seen) rest

/-- The per-component loop of ProvisioningManifest::validate. -/
def validateComponents : List ComponentDeclaration → Except String Unit
  | [] => .ok ()
  | c :: rest => c.validate >>= fun _ => validateComponents rest

/-- ProvisioningManifest::validate: version 1, a non-empty component list,
no duplicated URIs, then each component in order. -/
def ProvisioningManifest.validate (m : ProvisioningManifest) : Except String Unit :=
  if m.version ≠ 1 then
    .error "Unsupported manifest version. Only version 1 is supported."
  else if m.components.isEmpty then
    .error "Manifest must declare at least one component"
  else if hasDuplicateUris [] m.components then
    .error "Duplicate component URIs found"
  else validateComponents m.components

/-- The success condition asserted by claim C7, word for word: version 1,
non-empty components, pairwise-distinct URIs, accepted schemes, well-formed
digests, at least one permission class, fs:// storage URIs with non-empty
access sets, and non-empty pairwise-distinct environment keys. -/
def claimC7Conditions (m : ProvisioningManifest) : Prop :=
  m.version = 1 ∧ m.components ≠ [] ∧ (m.components.map (·.uri)).Nodup ∧
  ∀ c ∈ m.components,
    (∃ scheme ∈ validSchemes, strStartsWith c.uri scheme) ∧
    (∀ digest ∈ c.digest, strStartsWith digest "sha256:" ∧
      (strDrop digest 7).length = 64 ∧ (strDrop digest 7).all isAsciiHexdigit = true) ∧
    (c.permissions.network.isSome ∨ c.permissions.storage.isSome ∨
      c.permissions.environment.isSome ∨ c.permissions.resources.isSome) ∧
    (∀ st ∈ c.permissions.storage, ∀ r ∈ st.allow,
      strStartsWith r.uri "fs://" = true ∧ r.access ≠ []) ∧
    (∀ env ∈ c.permissions.environment,
      (∀ r ∈ env.allow, r.key ≠ "") ∧ (env.allow.map (·.key)).Nodup)

/-- The amended success condition: claim C7 plus the checks the source also
performs and the claim omits, namely that every permission class that is
present has a non-empty allow list and that every network host is
non-empty. -/
def amendedC7Conditions (m : ProvisioningManifest) : Prop :=
  m.version = 1 ∧ m.components ≠ [] ∧ (m.components.map (·.uri)).Nodup ∧
  ∀ c ∈ m.components,
    (∃ scheme ∈ validSchemes, strStartsWith c.uri scheme) ∧
    (∀ digest ∈ c.digest, strStartsWith digest "sha256:" ∧
      (strDrop digest 7).length = 64 ∧ (strDrop digest 7).all isAsciiHexdigit = true) ∧
    (c.permissions.network.isSome ∨ c.permissions.storage.isSome ∨
      c.permissions.environment.isSome ∨ c.permissions.resources.isSome) ∧
    (∀ network ∈ c.permissions.network, network.allow ≠ [] ∧
      ∀ r ∈ network.allow, r.host ≠ "") ∧
    (∀ st ∈ c.permissions.storage, st.allow ≠ [] ∧ ∀ r ∈ st.allow,
      strStartsWith r.uri "fs://" = true ∧ r.access ≠ []) ∧
    (∀ env ∈ c.permissions.environment, env.allow ≠ [] ∧
      (∀ r ∈ env.allow, r.key ≠ "") ∧ (env.allow.map (·.key)).Nodup)

end Manifest

namespace Policy

/-! ## Policy crate model and synthesis

The policy crate (PolicyDocument and its validation and YAML serialization)
is not part of the sources under verification; only its consumer
src/src/permission_synthesis.rs is.  The types below are therefore modelled
from the spec, and synthesize_policy_from_inline is embedded from the
source. -/

/-- Modelled from the spec: the policy crate's storage access type
(PolicyAccessType at the synthesis site). -/
inductive AccessType where
  | read
  | write
deriving DecidableEq, Repr

/-- Modelled from the spec: a network host permission entry (wildcards
permitted in the host string). -/
structure NetworkHostPermission where
  host : String
deriving DecidableEq, Repr

/-- Modelled from the spec: the policy crate's network permission variant
used by synthesis. -/
inductive NetworkPermission where
  | host (h : NetworkHostPermission)
deriving DecidableEq, Repr

/-- Modelled from the spec: a storage permission with an fs:// URI and an
access set. -/
structure StoragePermission where
  uri : String
  access : List AccessType
deriving DecidableEq, Repr

/-- Modelled from the spec: an environment permission naming one key. -/
structure EnvironmentPermission where
  key : String
deriving DecidableEq, Repr

/-- Modelled from the spec: a permission class carrying optional allow and
deny lists. -/
structure PermissionList (α : Type) where
  allow : Option (List α)
  deny : Option (List α)
deriving DecidableEq, Repr

/-- Modelled from the spec: the environment class carries only an allow
list. -/
structure EnvironmentPermissions where
  allow : Option (List EnvironmentPermission)
deriving DecidableEq, Repr

/-- Modelled from the spec: optional memory and CPU limits. -/
structure ResourceLimit where
  memory_bytes : Option Nat
  cpu_time_ms : Option Nat
deriving DecidableEq, Repr

/-- Modelled from the spec: the permissions block of a policy document with
its four optional classes. -/
structure Permissions where
  network : Option (PermissionList NetworkPermission)
  storage : Option (PermissionList StoragePermission)
  environment : Option EnvironmentPermissions
  resources : Option ResourceLimit
deriving DecidableEq, Repr

/-- Modelled from the spec: a policy document with version, description and
permissions. -/
structure PolicyDocument where
  version : String
  description : Option String
  permissions : Permissions
deriving DecidableEq, Repr

/-- Modelled from the spec: PolicyDocument::new starts from empty
permissions. -/
def PolicyDocument.new (version : String) (description : Option String) :
    PolicyDocument :=
  { version := version
    description := description
    permissions := { network := none, storage := none, environment := none,
                     resources := none } }

/-- The items of an optional permission list (allow or deny side). -/
def optItems {a : Type} (o : Option (List a)) : List a := o.getD []

/-- Modelled from the spec: the storage side of policy validation.  Storage
URIs must start with fs:// and carry a non-empty access set. -/
def storageClassOk : Option (PermissionList StoragePermission) → Bool
  | none => true
  | some pl =>
    (optItems pl.allow ++ optItems pl.deny).all fun sp =>
      Manifest.strStartsWith sp.uri "fs://" && !sp.access.isEmpty

/-- Modelled from the spec: the environment side of policy validation.
Environment keys must be unique and non-empty. -/
def environmentClassOk : Option EnvironmentPermissions → Bool
  | none => true
  | some ep =>
    (optItems ep.allow).all (fun p => !(p.key == "")) &&
      decide ((optItems ep.allow).map (fun p => p.key)).Nodup

/-- Modelled from the spec: PolicyDocument::validate. -/
def PolicyDocument.validate (d : PolicyDocument) : Bool :=
  storageClassOk d.permissions.storage &&
    environmentClassOk d.permissions.environment

/-- The pure document builder inside synthesize_policy_from_inline: version
1.0, an autogenerated description, and the three allow-list classes mapped
from the inline block (the inline resources class has no counterpart in the
synthesis code). -/
def build_policy_from_inline (inline : Manifest.InlinePermissions)
    (component_name : Option String) : PolicyDocument :=
  let base := PolicyDocument.new "1.0"
    (some ("Auto-generated policy for " ++ component_name.getD "component"))
  { base with permissions :=
    { network := inline.network.map fun network_perms =>
        { allow := some (network_perms.allow.map fun rule =>
            NetworkPermission.host { host := rule.host })
          deny := none }
      storage := inline.storage.map fun storage_perms =>
        { allow := some (storage_perms.allow.map fun rule =>
            { uri := rule.uri
              access := rule.access.map fun a =>
                match a with
                | Manifest.AccessType.read => AccessType.read
                | Manifest.AccessType.write => AccessType.write })
          deny := none }
      environment := inline.environment.map fun env_perms =>
        { allow := some (env_perms.allow.map fun rule =>
            { key := rule.key }) }
      resources := none } }

/-- synthesize_policy_from_inline from src/src/permission_synthesis.rs:
build the document, then gate on the policy validation. -/
def synthesize_policy_from_inline (inline : Manifest.InlinePermissions)
    (component_name : Option String) : Except String PolicyDocument :=
  let policy := build_policy_from_inline inline component_name
  if policy.validate then .ok policy
  else .error "Generated policy failed validation"

/-! ### YAML serialization model

Modelled from the spec: serde_yaml (de)serialization of the policy crate's
PolicyDocument, as an invertible mapping into a YAML value tree. -/

/-- A YAML value tree. -/
inductive Yaml where
  | null
  | str (s : String)
  | nat (n : Nat)
  | seq (xs : List Yaml)
  | map (kvs : List (String × Yaml))

/-- Serialize an access type. -/
def serializeAccess : AccessType → Yaml
  | .read => .str "read"
  | .write => .str "write"

/-- Parse each element of a YAML sequence, failing when any element
fails. -/
def parseList {a : Type} (g : Yaml → Option a) : List Yaml → Option (List a)
  | [] => some []
  | y :: ys =>
    match g y, parseList g ys with
    | some x, some xs => some (x :: xs)
    | _, _ => none

/-- Parse an access type. -/
def parseAccess : Yaml → Option AccessType
  | .str "read" => some .read
  | .str "write" => some .write
  | _ => none

/-- Serialize a network permission. -/
def serializeNetworkPermission : NetworkPermission → Yaml
  | .host h => .map [("host", .str h.host)]

/-- Parse a network permission. -/
def parseNetworkPermission : Yaml → Option NetworkPermission
  | .map [("host", .str h)] => some (.host { host := h })
  | _ => none

/-- Serialize a storage permission. -/
def serializeStoragePermission (sp : StoragePermission) : Yaml :=
  .map [("uri", .str sp.uri), ("access", .seq (sp.access.map serializeAccess))]

/-- Parse a storage permission. -/
def parseStoragePermission : Yaml → Option StoragePermission
  | .map [("uri", .str uri), ("access", .seq xs)] =>
    (parseList parseAccess xs).map fun access => { uri := uri, access := access }
  | _ => none

/-- Serialize an environment permission. -/
def serializeEnvironmentPermission (p : EnvironmentPermission) : Yaml :=
  .map [("key", .str p.key)]

/-- Parse an environment permission. -/
def parseEnvironmentPermission : Yaml → Option EnvironmentPermission
  | .map [("key", .str k)] => some { key := k }
  | _ => none

/-- Serialize an optional list with an element serializer; absence is
null. -/
def serializeOptList {a : Type} (f : a → Yaml) : Option (List a) → Yaml
  | none => .null
  | some l => .seq (l.map f)

/-- Parse an optional list with an element parser. -/
def parseOptList {a : Type} (g : Yaml → Option a) : Yaml → Option (Option (List a))
  | .null => some none
  | .seq xs => (parseList g xs).map some
  | _ => none

/-- Serialize a permission list (allow and deny sides). -/
def serializePermissionList {a : Type} (f : a → Yaml) (pl : PermissionList a) : Yaml :=
  .map [("allow", serializeOptList f pl.allow), ("deny", serializeOptList f pl.deny)]

/-- Parse a permission list. -/
def parsePermissionList {a : Type} (g : Yaml → Option a) :
    Yaml → Option (PermissionList a)
  | .map [("allow", ya), ("deny", yd)] =>
    match parseOptList g ya, parseOptList g yd with
    | some allow, some deny => some { allow := allow, deny := deny }
    | _, _ => none
  | _ => none

/-- Serialize the environment class. -/
def serializeEnvironmentPermissions (ep : EnvironmentPermissions) : Yaml :=
  .map [("allow", serializeOptList serializeEnvironmentPermission ep.allow)]

/-- Parse the environment class. -/
def parseEnvironmentPermissions : Yaml → Option EnvironmentPermissions
  | .map [("allow", ya)] =>
    (parseOptList parseEnvironmentPermission ya).map fun allow => { allow := allow }
  | _ => none

/-- Serialize an optional natural number; absence is null. -/
def serializeOptNat : Option Nat → Yaml
  | none => .null
  | some n => .nat n

/-- Parse an optional natural number. -/
def parseOptNat : Yaml → Option (Option Nat)
  | .null => some none
  | .nat n => some (some n)
  | _ => none

/-- Serialize resource limits. -/
def serializeResourceLimit (r : ResourceLimit) : Yaml :=
  .map [("memory_bytes", serializeOptNat r.memory_bytes),
        ("cpu_time_ms", serializeOptNat r.cpu_time_ms)]

/-- Parse resource limits. -/
def parseResourceLimit : Yaml → Option ResourceLimit
  | .map [("memory_bytes", ym), ("cpu_time_ms", yc)] =>
    match parseOptNat ym, parseOptNat yc with
    | some m, some c => some { memory_bytes := m, cpu_time_ms := c }
    | _, _ => none
  | _ => none

/-- Serialize an optional sub-document; absence is null. -/
def serializeOpt {a : Type} (f : a → Yaml) : Option a → Yaml
  | none => .null
  | some x => f x

/-- Parse an optional sub-document given that the present form is never
null. -/
def parseOpt {a : Type} (g : Yaml → Option a) : Yaml → Option (Option a)
  | .null => some none
  | y => (g y).map some

/-- Serialize the permissions block. -/
def serializePermissions (p : Permissions) : Yaml :=
  .map [("network", serializeOpt (serializePermissionList serializeNetworkPermission) p.network),
        ("storage", serializeOpt (serializePermissionList serializeStoragePermission) p.storage),
        ("environment", serializeOpt serializeEnvironmentPermissions p.environment),
        ("resources", serializeOpt serializeResourceLimit p.resources)]

/-- Parse the permissions block. -/
def parsePermissions : Yaml → Option Permissions
  | .map [("network", yn), ("storage", ys), ("environment", ye), ("resources", yr)] =>
    match parseOpt (parsePermissionList parseNetworkPermission) yn,
        parseOpt (parsePermissionList parseStoragePermission) ys,
        parseOpt parseEnvironmentPermissions ye,
        parseOpt parseResourceLimit yr with
    | some network, some storage, some environment, some resources =>
      some { network := network, storage := storage,
             environment := environment, resources := resources }
    | _, _, _, _ => none
  | _ => none

/-- Serialize the optional description; absence is null. -/
def serializeOptStr : Option String → Yaml
  | none => .null
  | some s => .str s

/-- Parse the optional description. -/
def parseOptStr : Yaml → Option (Option String)
  | .null => some none
  | .str s => some (some s)
  | _ => none

/-- serialize_policy_to_yaml: the document as a YAML value tree. -/
def serialize_policy_to_yaml (d : PolicyDocument) : Yaml :=
  .map [("version", .str d.version),
        ("description", serializeOptStr d.description),
        ("permissions", serializePermissions d.permissions)]

/-- Parsing a policy document from YAML. -/
def parse_policy_from_yaml : Yaml → Option PolicyDocument
  | .map [("version", .str v), ("description", yd), ("permissions", yp)] =>
    match parseOptStr yd, parsePermissions yp with
    | some description, some permissions =>
      some { version := v, description := description, permissions := permissions }
    | _, _ => none
  | _ => none

/-- The per-class correspondence asserted by claim C6, reading "each inline
permission class mapped to the corresponding allow list" over all four
inline classes, resources included. -/
def claimC6ClassMapping (inline : Manifest.InlinePermissions)
    (d : PolicyDocument) : Bool :=
  (match inline.network, d.permissions.network with
   | none, none => true
   | some np, some pl =>
     pl.allow == some (np.allow.map fun r => NetworkPermission.host { host := r.host })
   | _, _ => false) &&
  (match inline.storage, d.permissions.storage with
   | none, none => true
   | some sp, some pl =>
     pl.allow == some (sp.allow.map fun r =>
       ({ uri := r.uri
          access := r.access.map fun a =>
            match a with
            | Manifest.AccessType.read => AccessType.read
            | Manifest.AccessType.write => AccessType.write } : StoragePermission))
   | _, _ => false) &&
  (match inline.environment, d.permissions.environment with
   | none, none => true
   | some ep, some pe =>
     pe.allow == some (ep.allow.map fun r => ({ key := r.key } : EnvironmentPermission))
   | _, _ => false) &&
  (match inline.resources, d.permissions.resources with
   | none, none => true
   | some r, some pr =>
     pr.memory_bytes == r.memory_bytes && pr.cpu_time_ms == r.cpu_time_ms
   | _, _ => false)

end Policy

namespace Provisioning

/-! ## Provisioning controller: secret seeding

From src/src/provisioning_controller.rs (seed_secrets). -/

/-- The per-component secrets store of the SecretsManager, modeled as an
association list from secret key to value. -/
abbrev SecretsStore := List (String × String)

/-- The process environment. -/
abbrev ProcessEnv := String → Option String

/-- The secrets-collection loop of seed_secrets: for every declared
environment rule, read the process variable named by value_from (or the key
itself) into a local map; unset variables are only logged. -/
def secrets_from_env (env : ProcessEnv)
    (env_perms : Manifest.EnvironmentPermissions) : List (String × String) :=
  env_perms.allow.foldl
    (fun secrets rule =>
      let env_var_name := rule.value_from.getD rule.key
      match env env_var_name with
      | some value => secrets ++ [(rule.key, value)]
      | none => secrets)
    []

/-- ProvisioningController::seed_secrets: collect the declared secrets into
a local map and return Ok; the per-component secrets store is not written
(the source defers setting secrets and drops the collected map).  The
returned pair is the store (unchanged) and the locally collected map. -/
def seed_secrets (env : ProcessEnv) (c : Manifest.ComponentDeclaration)
    (store : SecretsStore) :
    Except String (SecretsStore × List (String × String)) :=
  match c.permissions.environment with
  | none => .ok (store, [])
  | some env_perms => .ok (store, secrets_from_env env env_perms)

/-- The post-state asserted by claim C5: the store contains an entry for
every declared key whose source environment variable is set. -/
def claimC5Seeded (env : ProcessEnv) (c : Manifest.ComponentDeclaration)
    (store : SecretsStore) : Prop :=
  ∀ perms ∈ c.permissions.environment, ∀ rule ∈ perms.allow,
    ∀ v ∈ env (rule.value_from.getD rule.key), (rule.key, v) ∈ store

end Provisioning

namespace Hooks

/-! ## Hook pipeline and MCP dispatcher

From crates/mcp-server/src/hooks.rs (ToolCallContext, ToolResultContext,
MiddlewareStack, blocked_result) and crates/mcp-server/src/server.rs
(McpServer::call_tool).  Rust hook bodies take the context by mutable
reference and return Result<(), ErrorData>; they are modeled as state
transformers returning the updated context together with an optional
error. -/

/-- serde_json::Map<String, Value>, the tool argument map. -/
abbrev ArgMap := List (String × Wassette.JsonValue)

/-- rmcp ErrorData, reduced to its message. -/
structure ErrorData where
  message : String
deriving DecidableEq, Repr

/-- One content item of a tool result (rmcp Content::text). -/
structure Content where
  text : String
deriving DecidableEq, Repr

/-- rmcp CallToolResult as constructed in hooks.rs. -/
structure CallToolResult where
  content : List Content
  structured_content : Option Wassette.JsonValue
  is_error : Option Bool
  meta : Option Wassette.JsonValue
deriving DecidableEq, Repr

/-- rmcp CallToolRequestParam. -/
structure CallToolRequestParam where
  name : String
  arguments : Option ArgMap
deriving DecidableEq, Repr

/-- ToolCallContext from hooks.rs.  clone_count is instrumentation counting
the executions of the clone inside arguments_mut (the only place the
argument map is cloned). -/
structure ToolCallContext where
  tool_name : String
  arguments : Option ArgMap
  original_arguments : Option ArgMap
  arguments_modified : Bool
  metadata : List (String × Wassette.JsonValue)
  blocked : Bool
  block_reason : Option String
  clone_count : Nat
deriving DecidableEq, Repr

/-- ToolCallContext::from_params: borrow the original arguments, no
clone. -/
def ToolCallContext.from_params (params : CallToolRequestParam) : ToolCallContext :=
  { tool_name := params.name
    arguments := none
    original_arguments := params.arguments
    arguments_modified := false
    metadata := []
    blocked := false
    block_reason := none
    clone_count := 0 }

/-- ToolCallContext::arguments: the shadow copy once modified, the borrowed
original otherwise. -/
def ToolCallContext.argumentsGet (ctx : ToolCallContext) : Option ArgMap :=
  if ctx.arguments_modified then ctx.arguments else ctx.original_arguments

/-- The state effect of ToolCallContext::arguments_mut: on first mutable
access, clone the original into the shadow and set the modified flag;
afterwards, return the context unchanged.  The clone counter records the
clone. -/
def ToolCallContext.argumentsMutTouch (ctx : ToolCallContext) : ToolCallContext :=
  if ctx.arguments_modified then ctx
  else { ctx with arguments := ctx.original_arguments
                  arguments_modified := true
                  clone_count := ctx.clone_count + 1 }

/-- ToolCallContext::block. -/
def ToolCallContext.block (ctx : ToolCallContext) (reason : String) : ToolCallContext :=
  { ctx with blocked := true, block_reason := some reason }

/-- ToolCallContext::into_params: the original request params when the
arguments were never modified, otherwise the rebuilt params with the shadow
arguments. -/
def ToolCallContext.into_params (ctx : ToolCallContext)
    (original_params : CallToolRequestParam) : CallToolRequestParam :=
  if ctx.arguments_modified then
    { name := original_params.name, arguments := ctx.arguments }
  else original_params

/-- ToolResultContext from hooks.rs. -/
structure ToolResultContext where
  tool_name : String
  result : CallToolResult
  metadata : List (String × Wassette.JsonValue)
  duration : Nat
deriving DecidableEq, Repr

/-- One ServerHooks implementation: the before and after bodies as state
transformers, plus an id used only to record the visit order. -/
structure Hook where
  id : Nat
  before : ToolCallContext → ToolCallContext × Option ErrorData
  after : ToolResultContext → ToolResultContext × Option ErrorData

/-- MiddlewareStack::before_tool_call: visit the hooks in insertion order,
stopping when a hook fails (the question mark propagates the error) or when
the context is blocked after a hook.  The first component records the ids of
the visited hooks in visit order. -/
def runBefore : List Hook → ToolCallContext →
    List Nat × ToolCallContext × Option ErrorData
  | [], ctx => ([], ctx, none)
  | h :: rest, ctx =>
    match h.before ctx with
    | (ctx2, some e) => ([h.id], ctx2, some e)
    | (ctx2, none) =>
      if ctx2.blocked then ([h.id], ctx2, none)
      else
        let r := runBefore rest ctx2
        (h.id :: r.1, r.2)

/-- The sequential after loop over an already-reversed list, stopping at the
first failure (mutations by hooks run before the failure persist in the
context). -/
def runAfterList : List Hook → ToolResultContext →
    List Nat × ToolResultContext × Option ErrorData
  | [], ctx => ([], ctx, none)
  | h :: rest, ctx =>
    match h.after ctx with
    | (ctx2, some e) => ([h.id], ctx2, some e)
    | (ctx2, none) =>
      let r := runAfterList rest ctx2
      (h.id :: r.1, r.2)

/-- MiddlewareStack::after_tool_call: iterate in reverse insertion order. -/
def runAfter (stack : List Hook) (ctx : ToolResultContext) :
    List Nat × ToolResultContext × Option ErrorData :=
  runAfterList stack.reverse ctx

/-- blocked_result from hooks.rs. -/
def blocked_result (reason : String) : CallToolResult :=
  { content := [{ text := "Tool call blocked: " ++ reason }]
    structured_content := none
    is_error := some true
    meta := none }

/-- The observable outcome of one dispatch of tools/call: the hook visit
traces, whether and with which params handle_tools_call ran, the clone count
of the before-phase context, and the response. -/
structure CallOutcome where
  beforeTrace : List Nat
  afterTrace : List Nat
  engineCalled : Bool
  engineParams : Option CallToolRequestParam
  cloneCount : Nat
  response : Except ErrorData CallToolResult

/-- McpServer::call_tool: build the context from the request, run the before
hooks (a failure is returned to the client), return the synthetic blocked
result when the context was blocked, otherwise forward into_params to
handle_tools_call (the invocation engine) and run the after hooks in reverse
on the result; an after-hook failure is logged and the (possibly partially
transformed) result is returned anyway. -/
def call_tool (hooks : List Hook)
    (engine : CallToolRequestParam → Except String CallToolResult)
    (params : CallToolRequestParam) : CallOutcome :=
  let ctx0 := ToolCallContext.from_params params
  let r := runBefore hooks ctx0
  let btr := r.1
  let ctx := r.2.1
  match r.2.2 with
  | some e =>
    { beforeTrace := btr, afterTrace := [], engineCalled := false,
      engineParams := none, cloneCount := ctx.clone_count, response := .error e }
  | none =>
    if ctx.blocked then
      let reason := ctx.block_reason.getD "Blocked by hook"
      { beforeTrace := btr, afterTrace := [], engineCalled := false,
        engineParams := none, cloneCount := ctx.clone_count,
        response := .ok (blocked_result reason) }
    else
      let metadata := ctx.metadata
      let final_params := ctx.into_params params
      match engine final_params with
      | .ok call_result =>
        let rctx : ToolResultContext :=
          { tool_name := ctx.tool_name, result := call_result,
            metadata := metadata, duration := 0 }
        let ra := runAfter hooks rctx
        { beforeTrace := btr, afterTrace := ra.1, engineCalled := true,
          engineParams := some final_params, cloneCount := ctx.clone_count,
          response := .ok ra.2.1.result }
      | .error err2 =>
        { beforeTrace := btr, afterTrace := [], engineCalled := true,
          engineParams := some final_params, cloneCount := ctx.clone_count,
          response := .error { message := err2 } }

/-- A before hook that runs the given pre hooks cleanly: every hook returns
Ok and leaves the context unblocked, so iteration continues past it.  Used
as the hypothesis of the ordering claims. -/
def runsCleanly : List Hook → ToolCallContext → Option ToolCallContext
  | [], ctx => some ctx
  | h :: rest, ctx =>
    match h.before ctx with
    | (_, some _) => none
    | (ctx2, none) => if ctx2.blocked then none else runsCleanly rest ctx2

/-! ### A small language of before-hook bodies

Claim C9 quantifies over hooks that do or do not invoke the mutable
accessor; hook bodies are therefore represented as sequences of the
operations the ServerHooks API offers on the context, interpreted through
the context API above. -/

/-- One operation of a before-hook body. -/
inductive BeforeAction where
  | readArgs
  | mutateArgs (f : Option ArgMap → Option ArgMap)
  | setMeta (k : String) (v : Wassette.JsonValue)
  | blockWith (reason : String)
  | failWith (msg : String)

/-- Interpret a before-hook body: reading allocates nothing; mutateArgs goes
through arguments_mut (cloning on first access) and rewrites the shadow map;
blockWith calls ctx.block and returns Ok; failWith returns the error. -/
def runActions : List BeforeAction → ToolCallContext →
    ToolCallContext × Option ErrorData
  | [], ctx => (ctx, none)
  | a :: rest, ctx =>
    match a with
    | .readArgs => runActions rest ctx
    | .mutateArgs f =>
      let ctx2 := ctx.argumentsMutTouch
      runActions rest { ctx2 with arguments := f ctx2.arguments }
    | .setMeta k v => runActions rest { ctx with metadata := (k, v) :: ctx.metadata }
    | .blockWith reason => (ctx.block reason, none)
    | .failWith msg => (ctx, some { message := msg })

/-- A hook whose before body is an action list and whose after body is a
no-op. -/
def Hook.ofActions (id : Nat) (acts : List BeforeAction) : Hook :=
  { id := id, before := runActions acts, after := fun c => (c, none) }

/-- Whether a hook body ever invokes the mutable accessor. -/
def usesMutAccessor : List BeforeAction → Bool
  | [] => false
  | .mutateArgs _ :: _ => true
  | _ :: rest => usesMutAccessor rest

end Hooks

namespace Polis

/-! ## Polis middleware chain: list-tools dispatch

From crates/polis-middleware/src/middleware.rs (MiddlewareChain,
run_on_list_tools), context.rs (ToolListContext) and server.rs
(PolisServer::list_tools). -/

/-- rmcp Tool, reduced to the fields list-tools hooks see. -/
structure Tool where
  name : String
  description : Option String
deriving DecidableEq, Repr

/-- MiddlewareError from middleware.rs. -/
structure MiddlewareError where
  message : String
  is_client_error : Bool
deriving DecidableEq, Repr

/-- ToolListContext from context.rs (metadata reduced to the extensions
map). -/
structure ToolListContext where
  tools : List Tool
  extensions : List (String × Wassette.JsonValue)
deriving DecidableEq, Repr

/-- ToolListContext::new. -/
def ToolListContext.new (tools : List Tool) : ToolListContext :=
  { tools := tools, extensions := [] }

/-- One middleware: its on_list_tools body as a state transformer that may
fail. -/
structure Middleware where
  id : Nat
  on_list_tools : ToolListContext → ToolListContext × Option MiddlewareError

/-- MiddlewareChain::run_on_list_tools: insertion order, stopping at the
first failure (mutations by middlewares run before the failure persist in
the context passed along, but the dispatcher discards them on failure). -/
def run_on_list_tools : List Middleware → ToolListContext →
    ToolListContext × Option MiddlewareError
  | [], ctx => (ctx, none)
  | m :: rest, ctx =>
    match m.on_list_tools ctx with
    | (ctx2, some e) => (ctx2, some e)
    | (ctx2, none) => run_on_list_tools rest ctx2

/-- rmcp ListToolsResult, reduced to its tools. -/
structure ListToolsResult where
  tools : List Tool
deriving DecidableEq, Repr

/-- PolisServer::list_tools on the success path of handle_tools_list: run
the middleware chain over a fresh context holding the registry's tool list;
on a chain failure the error is logged and the original list is kept, and
only when the whole chain succeeds are the context's tools written back.
The response is a success in both cases. -/
def list_tools (chain : List Middleware) (registry_tools : List Tool) :
    Except MiddlewareError ListToolsResult :=
  let list_ctx := ToolListContext.new registry_tools
  let r := run_on_list_tools chain list_ctx
  match r.2 with
  | some _ => .ok { tools := registry_tools }
  | none => .ok { tools := r.1.tools }

end Polis

/-! ## Theorems -/

namespace Wassette

/-- Appending to a fixed string on the left is injective. -/
theorem append_right_inj (a : String) {s t : String} (h : a ++ s = a ++ t) : s = t := by
  have h2 := congrArg String.data h
  simp [String.data_append] at h2
  exact String.ext h2

/-- The policy path of a component differs from the three paths touched by
artifact removal. -/
theorem policy_path_ne (id : String) :
    policy_path id ≠ component_path id ∧ policy_path id ≠ metadata_path id ∧
      policy_path id ≠ precompiled_path id := by
  refine ⟨fun h => ?_, fun h => ?_, fun h => ?_⟩ <;>
    exact absurd (append_right_inj id h) (by decide)

/-- C3 (counterexample): with every file already absent, removing the quartet
of component c attempts the paths in the order (.wasm, .meta.json,
.precompiled), which is not the claimed order (.meta.json, .precompiled,
.policy.yaml, .wasm); the policy file is never touched. -/
theorem remove_order_counterexample :
    (remove_component_artifacts (fun _ => .absent) "c").1 ≠ claimedRemovalOrder "c" ∧
      policy_path "c" ∉ (remove_component_artifacts (fun _ => .absent) "c").1 := by
  decide

/-- C3 (amended): for every component id and every filesystem in which none
of the three removal targets raises a non-NotFound IO error, removal succeeds
and attempts deletion in the order (.wasm, .meta.json, .precompiled); the
policy file is not among the attempted deletions, and files that are already
absent never cause the removal to fail. -/
theorem remove_component_artifacts_order (fs : RemovalFs) (id : String)
    (h1 : fs (component_path id) ≠ .ioError)
    (h2 : fs (metadata_path id) ≠ .ioError)
    (h3 : fs (precompiled_path id) ≠ .ioError) :
    remove_component_artifacts fs id =
      ([component_path id, metadata_path id, precompiled_path id], .ok ()) ∧
      policy_path id ∉ (remove_component_artifacts fs id).1 := by
  have step : ∀ p, fs p ≠ .ioError → remove_if_exists fs p = .ok () := by
    intro p hp
    unfold remove_if_exists
    cases h : fs p with
    | present => rfl
    | absent => rfl
    | ioError => exact absurd h hp
  have hr : remove_component_artifacts fs id =
      ([component_path id, metadata_path id, precompiled_path id], .ok ()) := by
    unfold remove_component_artifacts
    simp only [step _ h1, step _ h2, step _ h3]
  refine ⟨hr, ?_⟩
  rw [hr]
  obtain ⟨n1, n2, n3⟩ := policy_path_ne id
  simp [n1, n2, n3]

/-- C3 (witness): the amended removal-order theorem applied to an empty
filesystem and component id c. -/
theorem remove_component_artifacts_order_witness :
    remove_component_artifacts (fun _ => .absent) "c" =
      ([component_path "c", metadata_path "c", precompiled_path "c"], .ok ()) ∧
      policy_path "c" ∉ (remove_component_artifacts (fun _ => .absent) "c").1 :=
  remove_component_artifacts_order (fun _ => .absent) "c"
    (by decide) (by decide) (by decide)

/-- C4 (counterexample): a stamp that carries a matching content hash
validates even when the recorded mtime disagrees with the file (mtime 99
versus 5): validate_stamp returns true although the claimed condition (which
requires the mtime to match as well) is false. -/
theorem validate_stamp_counterexample :
    validate_stamp (fun _ => some ⟨[1, 2], 5⟩) "f"
        ⟨2, 99, some [1, 2]⟩ = true ∧
      claimC4Matches (fun _ => some ⟨[1, 2], 5⟩) "f"
        ⟨2, 99, some [1, 2]⟩ = false := by
  decide

/-- C4 (amended): validate_stamp returns true exactly when the file exists
with the stamped size and, when the stamp carries a content hash, the
recomputed hash equals the stored one (the mtime is not consulted in that
case), or, when it carries none, the mtime equals the stamped one.
Consequently a stamp freshly created from a file validates against the
unchanged file, and any change of the file content invalidates a
hash-carrying stamp. -/
theorem validate_stamp_correct (fs fs2 : StampFs) (path : String)
    (stamp : ValidationStamp) (include_hash : Bool) (fi fi2 : FileInfo) :
    (validate_stamp fs path stamp =
      (match fs path with
       | none => false
       | some f =>
         decide (f.size = stamp.file_size) &&
           (match stamp.content_hash with
            | some h => decide (compute_file_hash f.content = h)
            | none => decide (f.mtime = stamp.mtime)))) ∧
    (create_validation_stamp fs path include_hash = .ok stamp →
      validate_stamp fs path stamp = true) ∧
    (create_validation_stamp fs path true = .ok stamp → fs path = some fi →
      fs2 path = some fi2 → fi2.content ≠ fi.content →
      validate_stamp fs2 path stamp = false) := by
  refine ⟨?_, ?_, ?_⟩
  · cases h : fs path with
    | none => simp [validate_stamp, h]
    | some f =>
      by_cases hsz : f.size = stamp.file_size <;>
        cases hh : stamp.content_hash <;>
          simp [validate_stamp, h, hh, hsz]
  · intro hc
    unfold create_validation_stamp at hc
    cases h : fs path with
    | none => rw [h] at hc; exact absurd hc (by simp)
    | some f =>
      rw [h] at hc
      simp only [Except.ok.injEq] at hc
      unfold validate_stamp
      rw [h, ← hc]
      cases include_hash <;> simp
  · intro hc hfs hfs2 hne
    unfold create_validation_stamp at hc
    rw [hfs] at hc
    simp only [if_pos] at hc
    simp only [Except.ok.injEq] at hc
    unfold validate_stamp
    rw [hfs2, ← hc]
    simp only [compute_file_hash]
    by_cases hsz : fi2.size = fi.size
    · simp [FileInfo.size, hsz, hne]
    · simp [FileInfo.size] at hsz ⊢
      simp [hsz, hne]

/-- C4w (witness): the amended stamp theorem applied to a one-byte file; the
freshly created hash-carrying stamp validates, and replacing the content
invalidates it. -/
theorem validate_stamp_correct_witness :
    validate_stamp (fun _ => some ⟨[1], 3⟩) "p" ⟨1, 3, some [1]⟩ = true ∧
      validate_stamp (fun _ => some ⟨[2], 3⟩) "p" ⟨1, 3, some [1]⟩ = false :=
  ⟨(validate_stamp_correct (fun _ => some ⟨[1], 3⟩) (fun _ => some ⟨[2], 3⟩) "p"
      ⟨1, 3, some [1]⟩ true ⟨[1], 3⟩ ⟨[2], 3⟩).2.1 rfl,
   (validate_stamp_correct (fun _ => some ⟨[1], 3⟩) (fun _ => some ⟨[2], 3⟩) "p"
      ⟨1, 3, some [1]⟩ true ⟨[1], 3⟩ ⟨[2], 3⟩).2.2 rfl rfl rfl (by decide)⟩

end Wassette

namespace Manifest

/-- isOk of a bind of unit-valued Except computations. -/
theorem bind_isOk (a : Except String Unit) (f : Unit → Except String Unit) :
    (a >>= f).isOk = true ↔ a.isOk = true ∧ (f ()).isOk = true := by
  cases a with
  | error e => simp [Bind.bind, Except.bind, Except.isOk, Except.toBool]
  | ok u => cases u; simp [Bind.bind, Except.bind, Except.isOk, Except.toBool]

/-- The network-rule loop succeeds exactly when every host is non-empty. -/
theorem checkNetworkRules_isOk (l : List NetworkRule) :
    (checkNetworkRules l).isOk = true ↔ ∀ r ∈ l, r.host ≠ "" := by
  induction l with
  | nil => simp [checkNetworkRules, Except.isOk, Except.toBool]
  | cons r rest ih =>
    by_cases h : r.host = ""
    · simp [checkNetworkRules, h, Except.isOk, Except.toBool]
    · rw [show checkNetworkRules (r :: rest) = checkNetworkRules rest by
          simp [checkNetworkRules, h]]
      rw [ih]
      simp [h]

/-- The empty string does not start with fs://. -/
theorem empty_not_fs : strStartsWith "" "fs://" = false := by decide

/-- The storage-rule loop succeeds exactly when every rule has an fs:// URI
and a non-empty access set (an empty URI never starts with fs://). -/
theorem checkStorageRules_isOk (l : List StorageRule) :
    (checkStorageRules l).isOk = true ↔
      ∀ r ∈ l, strStartsWith r.uri "fs://" = true ∧ r.access ≠ [] := by
  induction l with
  | nil => simp [checkStorageRules, Except.isOk, Except.toBool]
  | cons r rest ih =>
    by_cases h1 : r.uri = ""
    · simp [checkStorageRules, h1, empty_not_fs, Except.isOk, Except.toBool]
    · by_cases h2 : strStartsWith r.uri "fs://" = true
      · by_cases h3 : r.access.isEmpty = true
        · simp [checkStorageRules, h1, h2, h3, List.isEmpty_iff.mp h3,
            Except.isOk, Except.toBool]
        · have h4 : r.access ≠ [] := fun hc => h3 (by simp [hc])
          simp [checkStorageRules, h1, h2, h3, h4, ih]
      · simp [checkStorageRules, h1, h2, Except.isOk, Except.toBool]

/-- The environment-rule loop succeeds exactly when every key is non-empty,
the keys are pairwise distinct, and no key is in the seeded seen set. -/
theorem checkEnvRules_isOk (seen : List String) (l : List EnvironmentRule) :
    (checkEnvRules seen l).isOk = true ↔
      (∀ r ∈ l, r.key ≠ "") ∧ (l.map (·.key)).Nodup ∧
        ∀ k ∈ l.map (·.key), k ∉ seen := by
  induction l generalizing seen with
  | nil => simp [checkEnvRules, Except.isOk, Except.toBool]
  | cons r rest ih =>
    by_cases h1 : r.key = ""
    · simp [checkEnvRules, h1, Except.isOk, Except.toBool]
    · by_cases h2 : seen.contains r.key = true
      · have h2m : r.key ∈ seen := by simpa using h2
        simp only [checkEnvRules, if_neg h1, if_pos h2]
        constructor
        · intro h
          simp [Except.isOk, Except.toBool] at h
        · rintro ⟨-, -, hc⟩
          exact absurd h2m (hc r.key (by simp))
      · have h2m : r.key ∉ seen := by simpa using h2
        simp only [checkEnvRules, if_neg h1, if_neg h2]
        rw [ih (r.key :: seen)]
        constructor
        · rintro ⟨ha, hb, hc⟩
          refine ⟨?_, ?_, ?_⟩
          · intro x hx
            rcases List.mem_cons.mp hx with rfl | hx
            · exact h1
            · exact ha x hx
          · refine List.nodup_cons.mpr ⟨?_, hb⟩
            intro hmem
            exact (hc _ hmem) (List.mem_cons_self _ _)
          · intro k hk
            rcases List.mem_cons.mp hk with rfl | hk
            · exact h2m
            · exact fun hs => (hc _ hk) (List.mem_cons_of_mem _ hs)
        · rintro ⟨ha, hb, hc⟩
          have hb2 := List.nodup_cons.mp hb
          refine ⟨fun x hx => ha x (List.mem_cons_of_mem _ hx), hb2.2, ?_⟩
          intro k hk hmem
          rcases List.mem_cons.mp hmem with rfl | hs
          · exact hb2.1 hk
          · exact hc k (List.mem_cons_of_mem _ hk) hs

/-- The network block succeeds exactly when a present network class has a
non-empty allow list of non-empty hosts. -/
theorem validateNetworkBlock_isOk (o : Option NetworkPermissions) :
    (validateNetworkBlock o).isOk = true ↔
      ∀ network ∈ o, network.allow ≠ [] ∧ ∀ r ∈ network.allow, r.host ≠ "" := by
  cases o with
  | none => simp [validateNetworkBlock, Except.isOk, Except.toBool]
  | some network =>
    by_cases h : network.allow.isEmpty = true
    · simp [validateNetworkBlock, h, List.isEmpty_iff.mp h, Except.isOk,
        Except.toBool]
    · have h2 : network.allow ≠ [] := fun hc => h (by simp [hc])
      simp [validateNetworkBlock, h, h2, checkNetworkRules_isOk]

/-- The storage block succeeds exactly when a present storage class has a
non-empty allow list of fs:// rules with non-empty access sets. -/
theorem validateStorageBlock_isOk (o : Option StoragePermissions) :
    (validateStorageBlock o).isOk = true ↔
      ∀ st ∈ o, st.allow ≠ [] ∧ ∀ r ∈ st.allow,
        strStartsWith r.uri "fs://" = true ∧ r.access ≠ [] := by
  cases o with
  | none => simp [validateStorageBlock, Except.isOk, Except.toBool]
  | some storage =>
    by_cases h : storage.allow.isEmpty = true
    · simp [validateStorageBlock, h, List.isEmpty_iff.mp h, Except.isOk,
        Except.toBool]
    · have h2 : storage.allow ≠ [] := fun hc => h (by simp [hc])
      simp [validateStorageBlock, h, h2, checkStorageRules_isOk]

/-- The environment block succeeds exactly when a present environment class
has a non-empty allow list of non-empty pairwise-distinct keys. -/
theorem validateEnvironmentBlock_isOk (o : Option EnvironmentPermissions) :
    (validateEnvironmentBlock o).isOk = true ↔
      ∀ env ∈ o, env.allow ≠ [] ∧ (∀ r ∈ env.allow, r.key ≠ "") ∧
        (env.allow.map (·.key)).Nodup := by
  cases o with
  | none => simp [validateEnvironmentBlock, Except.isOk, Except.toBool]
  | some env =>
    by_cases h : env.allow.isEmpty = true
    · simp [validateEnvironmentBlock, h, List.isEmpty_iff.mp h, Except.isOk,
        Except.toBool]
    · have h2 : env.allow ≠ [] := fun hc => h (by simp [hc])
      simp [validateEnvironmentBlock, h, h2, checkEnvRules_isOk]

/-- InlinePermissions::validate succeeds exactly when some class is present
and every present class block passes. -/
theorem inlinePermissions_validate_isOk (p : InlinePermissions) :
    (p.validate).isOk = true ↔
      ((p.network.isSome ∨ p.storage.isSome ∨ p.environment.isSome ∨
          p.resources.isSome) ∧
        (∀ network ∈ p.network, network.allow ≠ [] ∧
          ∀ r ∈ network.allow, r.host ≠ "") ∧
        (∀ st ∈ p.storage, st.allow ≠ [] ∧ ∀ r ∈ st.allow,
          strStartsWith r.uri "fs://" = true ∧ r.access ≠ []) ∧
        (∀ env ∈ p.environment, env.allow ≠ [] ∧
          (∀ r ∈ env.allow, r.key ≠ "") ∧ (env.allow.map (·.key)).Nodup)) := by
  unfold InlinePermissions.validate
  by_cases h : (p.network.isNone && p.storage.isNone && p.environment.isNone &&
      p.resources.isNone) = true
  · have hn : ¬(p.network.isSome ∨ p.storage.isSome ∨ p.environment.isSome ∨
        p.resources.isSome) := by
      simp only [Bool.and_eq_true] at h
      simp [Option.isSome_iff_ne_none, Option.isNone_iff_eq_none.mp h.1.1.1,
        Option.isNone_iff_eq_none.mp h.1.1.2, Option.isNone_iff_eq_none.mp h.1.2,
        Option.isNone_iff_eq_none.mp h.2]
    simp [h, hn, Except.isOk, Except.toBool]
  · have hp : p.network.isSome ∨ p.storage.isSome ∨ p.environment.isSome ∨
        p.resources.isSome := by
      rcases hn : p.network with - | v
      · rcases hs : p.storage with - | v
        · rcases he : p.environment with - | v
          · rcases hr : p.resources with - | v
            · exact absurd (by simp [hn, hs, he, hr]) h
            · simp [hr]
          · simp [he]
        · simp [hs]
      · simp [hn]
    rw [if_neg h, bind_isOk, bind_isOk, validateNetworkBlock_isOk,
      validateStorageBlock_isOk, validateEnvironmentBlock_isOk]
    simp [hp]

/-- The digest-format check succeeds exactly when every declared digest has
the sha256: prefix followed by 64 hex characters. -/
theorem validateDigestFormat_isOk (o : Option String) :
    (validateDigestFormat o).isOk = true ↔
      ∀ digest ∈ o, strStartsWith digest "sha256:" = true ∧
        (strDrop digest 7).length = 64 ∧
        (strDrop digest 7).all isAsciiHexdigit = true := by
  cases o with
  | none => simp [validateDigestFormat, Except.isOk, Except.toBool]
  | some digest =>
    by_cases h1 : strStartsWith digest "sha256:" = true
    · by_cases h2 : (strDrop digest 7).length = 64
      · by_cases h3 : (strDrop digest 7).all isAsciiHexdigit = true
        · have h3m := List.all_eq_true.mp h3
          simp [validateDigestFormat, h1, h2, h3, Except.isOk, Except.toBool]
          exact h3m
        · have h3f : (strDrop digest 7).all isAsciiHexdigit = false := by
            cases hb : (strDrop digest 7).all isAsciiHexdigit
            · rfl
            · exact absurd hb h3
          have h3m : ∃ x ∈ strDrop digest 7, isAsciiHexdigit x = false := by
            simpa [List.all_eq_false] using h3f
          simp [validateDigestFormat, h1, h2, h3, Except.isOk, Except.toBool]
          exact h3m
      · simp [validateDigestFormat, h1, h2, Except.isOk, Except.toBool]
    · simp [validateDigestFormat, h1, Except.isOk, Except.toBool]

/-- An empty URI starts with none of the accepted schemes. -/
theorem empty_uri_no_scheme :
    validSchemes.any (fun scheme => strStartsWith "" scheme) = false := by
  decide

/-- ComponentDeclaration::validate succeeds exactly when the URI carries an
accepted scheme, the digest (when declared) is well formed, and the inline
permissions validate. -/
theorem componentDeclaration_validate_isOk (c : ComponentDeclaration) :
    (c.validate).isOk = true ↔
      ((∃ scheme ∈ validSchemes, strStartsWith c.uri scheme = true) ∧
        (∀ digest ∈ c.digest, strStartsWith digest "sha256:" = true ∧
          (strDrop digest 7).length = 64 ∧
          (strDrop digest 7).all isAsciiHexdigit = true) ∧
        (c.permissions.validate).isOk = true) := by
  unfold ComponentDeclaration.validate
  by_cases h0 : c.uri = ""
  · have hany : ¬∃ scheme ∈ validSchemes, strStartsWith c.uri scheme = true := by
      rw [h0]
      intro hc
      exact absurd (List.any_eq_true.mpr (by simpa using hc)) (by simp [empty_uri_no_scheme])
    rw [if_pos h0]
    constructor
    · intro h
      simp [Except.isOk, Except.toBool] at h
    · rintro ⟨hex, -, -⟩
      exact absurd hex hany
  · rw [if_neg h0]
    by_cases h1 : validSchemes.any (fun scheme => strStartsWith c.uri scheme) = true
    · have hex : ∃ scheme ∈ validSchemes, strStartsWith c.uri scheme = true := by
        simpa using List.any_eq_true.mp h1
      rw [if_neg (by simp [h1]), bind_isOk, validateDigestFormat_isOk]
      simp [hex]
    · have hex : ¬∃ scheme ∈ validSchemes, strStartsWith c.uri scheme = true := by
        intro hc
        exact h1 (List.any_eq_true.mpr (by simpa using hc))
      rw [if_pos (by simp [h1])]
      simp [hex, Except.isOk, Except.toBool]

/-- The component loop succeeds exactly when every component validates. -/
theorem validateComponents_isOk (l : List ComponentDeclaration) :
    (validateComponents l).isOk = true ↔ ∀ c ∈ l, (c.validate).isOk = true := by
  induction l with
  | nil => simp [validateComponents, Except.isOk, Except.toBool]
  | cons c rest ih => simp [validateComponents, bind_isOk, ih]

/-- The duplicated-URI scan reports false exactly when the URIs are pairwise
distinct and disjoint from the seeded seen set. -/
theorem hasDuplicateUris_eq_false (seen : List String) (l : List ComponentDeclaration) :
    hasDuplicateUris seen l = false ↔
      (l.map (·.uri)).Nodup ∧ ∀ u ∈ l.map (·.uri), u ∉ seen := by
  induction l generalizing seen with
  | nil => simp [hasDuplicateUris]
  | cons c rest ih =>
    simp only [hasDuplicateUris, Bool.or_eq_false_iff]
    rw [ih (c.uri :: seen)]
    constructor
    · rintro ⟨h1, h2, h3⟩
      have h1m : c.uri ∉ seen := by simpa using h1
      refine ⟨?_, ?_⟩
      · refine List.nodup_cons.mpr ⟨?_, h2⟩
        intro hmem
        exact (h3 _ hmem) (List.mem_cons_self _ _)
      · intro u hu
        rcases List.mem_cons.mp hu with rfl | hu
        · exact h1m
        · exact fun hs => (h3 _ hu) (List.mem_cons_of_mem _ hs)
    · rintro ⟨h1, h2⟩
      have h1n := List.nodup_cons.mp h1
      refine ⟨by simpa using h2 _ (List.mem_cons_self _ _), h1n.2, ?_⟩
      intro u hu hmem
      rcases List.mem_cons.mp hmem with rfl | hs
      · exact h1n.1 hu
      · exact h2 u (List.mem_cons_of_mem _ hu) hs

/-- C7 (counterexample): a manifest whose single component declares a network
class with an empty allow list satisfies every condition listed by the claim
(version 1, non-empty components, distinct URIs, accepted scheme, no digest,
at least one permission class, no storage, no environment keys), yet
validation fails, refuting the claimed exact characterization. -/
theorem manifest_validate_counterexample :
    claimC7Conditions
        ⟨1, [⟨"file://x", none, none, ⟨some ⟨[]⟩, none, none, none⟩, none⟩]⟩ ∧
      (ProvisioningManifest.validate
          ⟨1, [⟨"file://x", none, none, ⟨some ⟨[]⟩, none, none, none⟩, none⟩]⟩).isOk
        = false := by
  constructor
  · refine ⟨rfl, by simp, by simp, ?_⟩
    intro c hc
    rw [List.mem_singleton.mp hc]
    refine ⟨⟨"file://", by simp [validSchemes], by decide⟩, by simp, ?_, by simp, by simp⟩
    exact Or.inl (by decide)
  · rfl

/-- C7 (amended): ProvisioningManifest::validate succeeds exactly when the
claimed conditions hold together with the checks the claim omits: every
permission class that is present has a non-empty allow list, and every
network host is non-empty. -/
theorem manifest_validate_iff (m : ProvisioningManifest) :
    (m.validate).isOk = true ↔ amendedC7Conditions m := by
  unfold ProvisioningManifest.validate amendedC7Conditions
  by_cases hv : m.version = 1
  · rw [if_neg (not_not_intro hv)]
    by_cases he : m.components.isEmpty = true
    · rw [if_pos he]
      simp [List.isEmpty_iff.mp he, Except.isOk, Except.toBool]
    · rw [if_neg he]
      have hne : m.components ≠ [] := fun hc => he (by simp [hc])
      by_cases hd : hasDuplicateUris [] m.components = true
      · rw [if_pos hd]
        have hnd : ¬(m.components.map (·.uri)).Nodup := by
          intro hn
          have hf := (hasDuplicateUris_eq_false [] m.components).mpr ⟨hn, by simp⟩
          simp [hf] at hd
        simp [Except.isOk, Except.toBool, hnd]
      · rw [if_neg hd]
        have hnd : (m.components.map (·.uri)).Nodup :=
          ((hasDuplicateUris_eq_false [] m.components).mp (by simpa using hd)).1
        rw [validateComponents_isOk]
        simp only [componentDeclaration_validate_isOk,
          inlinePermissions_validate_isOk]
        simp [hv, hne, hnd, and_assoc]
  · rw [if_pos hv]
    simp [Except.isOk, Except.toBool, hv]

end Manifest

namespace Provisioning

/-- Entries already collected stay in the secrets fold. -/
theorem secrets_fold_mono (env : ProcessEnv) (l : List Manifest.EnvironmentRule)
    (acc : List (String × String)) (p : String × String) (hp : p ∈ acc) :
    p ∈ l.foldl
      (fun secrets rule =>
        match env (rule.value_from.getD rule.key) with
        | some value => secrets ++ [(rule.key, value)]
        | none => secrets)
      acc := by
  induction l generalizing acc with
  | nil => simpa using hp
  | cons r rest ih =>
    simp only [List.foldl_cons]
    apply ih
    cases env (r.value_from.getD r.key) <;> simp [hp]

/-- Every declared rule whose source variable is set contributes its entry
to the secrets fold. -/
theorem mem_secrets_fold (env : ProcessEnv) (rule : Manifest.EnvironmentRule)
    (v : String) (hv : env (rule.value_from.getD rule.key) = some v) :
    ∀ (l : List Manifest.EnvironmentRule) (acc : List (String × String)),
      rule ∈ l →
      (rule.key, v) ∈ l.foldl
        (fun secrets r =>
          match env (r.value_from.getD r.key) with
          | some value => secrets ++ [(r.key, value)]
          | none => secrets)
        acc := by
  intro l
  induction l with
  | nil => intro acc h; cases h
  | cons r rest ih =>
    intro acc h
    simp only [List.foldl_cons]
    rcases List.mem_cons.mp h with rfl | h2
    · rw [hv]
      exact secrets_fold_mono env rest _ _ (by simp)
    · exact ih _ h2

/-- C5 (counterexample): a component declaring the environment-backed secret
API_KEY sourced from the set variable TEST_API_KEY is seeded into the local
map only; the secrets store stays empty after seeding, so the claimed
post-state (store contains the entry) fails. -/
theorem seed_secrets_counterexample :
    seed_secrets
        (fun v => if v = "TEST_API_KEY" then some "secret123" else none)
        ⟨"oci://example.com/test:latest", some "test", none,
          ⟨none, none, some ⟨[⟨"API_KEY", some "TEST_API_KEY"⟩]⟩, none⟩, none⟩
        []
      = .ok ([], [("API_KEY", "secret123")]) ∧
    ¬ claimC5Seeded
        (fun v => if v = "TEST_API_KEY" then some "secret123" else none)
        ⟨"oci://example.com/test:latest", some "test", none,
          ⟨none, none, some ⟨[⟨"API_KEY", some "TEST_API_KEY"⟩]⟩, none⟩, none⟩
        [] := by
  constructor
  · rfl
  · intro h
    exact absurd
      (h ⟨[⟨"API_KEY", some "TEST_API_KEY"⟩]⟩ rfl
        ⟨"API_KEY", some "TEST_API_KEY"⟩ (by decide) "secret123" (by decide))
      (by decide)

/-- C5 (amended): seed_secrets succeeds and reads each declared
environment-backed secret value (from the process variable named by
value_from, defaulting to the key itself) into a locally collected map, but
writes nothing into the per-component secrets store: the store after seeding
is exactly the store before. -/
theorem seed_secrets_no_store_write (env : ProcessEnv)
    (c : Manifest.ComponentDeclaration) (store : SecretsStore) :
    (seed_secrets env c store).isOk = true ∧
    (∀ out, seed_secrets env c store = .ok out → out.1 = store) ∧
    (∀ perms ∈ c.permissions.environment, ∀ rule ∈ perms.allow,
      ∀ v ∈ env (rule.value_from.getD rule.key),
      ∀ out, seed_secrets env c store = .ok out → (rule.key, v) ∈ out.2) := by
  refine ⟨?_, ?_, ?_⟩
  · cases hc : c.permissions.environment <;>
      simp [seed_secrets, hc, Except.isOk, Except.toBool]
  · intro out hout
    cases hc : c.permissions.environment with
    | none =>
      unfold seed_secrets at hout
      rw [hc] at hout
      simp only [Except.ok.injEq] at hout
      rw [← hout]
    | some perms =>
      unfold seed_secrets at hout
      rw [hc] at hout
      simp only [Except.ok.injEq] at hout
      rw [← hout]
  · intro perms hperms rule hrule v hv out hout
    cases hc : c.permissions.environment with
    | none =>
      rw [hc] at hperms
      cases hperms
    | some perms2 =>
      rw [hc] at hperms
      have hpe : perms2 = perms := by
        have h2 := hperms
        simp only [Option.mem_def, Option.some.injEq] at h2
        exact h2
      unfold seed_secrets at hout
      rw [hc] at hout
      simp only [Except.ok.injEq] at hout
      rw [← hout]
      unfold secrets_from_env
      refine mem_secrets_fold env rule v hv perms2.allow [] ?_
      rw [hpe]
      exact hrule

/-- C5w (witness): the amended seeding theorem applied to a component with
one declared secret and a pre-populated store: the store is returned
unchanged and the collected local map carries the read value. -/
theorem seed_secrets_no_store_write_witness :
    (([("OLD", "o")] : SecretsStore), [("API_KEY", "secret123")]).1
        = [("OLD", "o")] ∧
      ("API_KEY", "secret123")
        ∈ (([("OLD", "o")] : SecretsStore), [("API_KEY", "secret123")]).2 :=
  ⟨(seed_secrets_no_store_write
      (fun v => if v = "TEST_API_KEY" then some "secret123" else none)
      ⟨"oci://example.com/test:latest", some "test", none,
        ⟨none, none, some ⟨[⟨"API_KEY", some "TEST_API_KEY"⟩]⟩, none⟩, none⟩
      [("OLD", "o")]).2.1 _ rfl,
   (seed_secrets_no_store_write
      (fun v => if v = "TEST_API_KEY" then some "secret123" else none)
      ⟨"oci://example.com/test:latest", some "test", none,
        ⟨none, none, some ⟨[⟨"API_KEY", some "TEST_API_KEY"⟩]⟩, none⟩, none⟩
      [("OLD", "o")]).2.2 ⟨[⟨"API_KEY", some "TEST_API_KEY"⟩]⟩ rfl
      ⟨"API_KEY", some "TEST_API_KEY"⟩ (by decide) "secret123" (by decide) _ rfl⟩

end Provisioning

namespace Policy

/-- Parsing a mapped list element-wise inverts the mapping. -/
theorem parseList_map_rt {a : Type} (f : a → Yaml) (g : Yaml → Option a)
    (h : ∀ x, g (f x) = some x) (l : List a) :
    parseList g (l.map f) = some l := by
  induction l with
  | nil => rfl
  | cons x xs ih => simp [parseList, h, ih]

/-- Access types round-trip. -/
theorem rt_access (a : AccessType) : parseAccess (serializeAccess a) = some a := by
  cases a <;> rfl

/-- Network permissions round-trip. -/
theorem rt_network (p : NetworkPermission) :
    parseNetworkPermission (serializeNetworkPermission p) = some p := by
  cases p with
  | host h => rfl

/-- Storage permissions round-trip. -/
theorem rt_storage (sp : StoragePermission) :
    parseStoragePermission (serializeStoragePermission sp) = some sp := by
  simp [serializeStoragePermission, parseStoragePermission,
    parseList_map_rt serializeAccess parseAccess rt_access]

/-- Environment permissions round-trip. -/
theorem rt_envp (p : EnvironmentPermission) :
    parseEnvironmentPermission (serializeEnvironmentPermission p) = some p := rfl

/-- Optional lists round-trip. -/
theorem rt_optList {a : Type} (f : a → Yaml) (g : Yaml → Option a)
    (h : ∀ x, g (f x) = some x) (o : Option (List a)) :
    parseOptList g (serializeOptList f o) = some o := by
  cases o with
  | none => rfl
  | some l => simp [serializeOptList, parseOptList, parseList_map_rt f g h]

/-- Permission lists round-trip. -/
theorem rt_permissionList {a : Type} (f : a → Yaml) (g : Yaml → Option a)
    (h : ∀ x, g (f x) = some x) (pl : PermissionList a) :
    parsePermissionList g (serializePermissionList f pl) = some pl := by
  obtain ⟨al, de⟩ := pl
  simp [serializePermissionList, parsePermissionList, rt_optList f g h]

/-- The environment class round-trips. -/
theorem rt_envPerms (ep : EnvironmentPermissions) :
    parseEnvironmentPermissions (serializeEnvironmentPermissions ep) = some ep := by
  obtain ⟨al⟩ := ep
  simp [serializeEnvironmentPermissions, parseEnvironmentPermissions,
    rt_optList serializeEnvironmentPermission parseEnvironmentPermission rt_envp]

/-- Optional numbers round-trip. -/
theorem rt_optNat (o : Option Nat) : parseOptNat (serializeOptNat o) = some o := by
  cases o <;> rfl

/-- Resource limits round-trip. -/
theorem rt_resource (r : ResourceLimit) :
    parseResourceLimit (serializeResourceLimit r) = some r := by
  obtain ⟨m, c⟩ := r
  simp [serializeResourceLimit, parseResourceLimit, rt_optNat]

/-- Optional sub-documents round-trip when the present form is never
null. -/
theorem rt_opt {a : Type} (f : a → Yaml) (g : Yaml → Option a)
    (h : ∀ x, g (f x) = some x) (hnn : ∀ x, f x ≠ Yaml.null) (o : Option a) :
    parseOpt g (serializeOpt f o) = some o := by
  cases o with
  | none => rfl
  | some x =>
    have hx := h x
    show parseOpt g (f x) = some (some x)
    cases hfx : f x with
    | null => exact absurd hfx (hnn x)
    | str s => rw [hfx] at hx; simp [parseOpt, hx]
    | nat n => rw [hfx] at hx; simp [parseOpt, hx]
    | seq xs => rw [hfx] at hx; simp [parseOpt, hx]
    | map kvs => rw [hfx] at hx; simp [parseOpt, hx]

/-- The permissions block round-trips. -/
theorem rt_permissions (p : Permissions) :
    parsePermissions (serializePermissions p) = some p := by
  obtain ⟨n, s, e, r⟩ := p
  have h1 := rt_opt (serializePermissionList serializeNetworkPermission)
    (parsePermissionList parseNetworkPermission)
    (rt_permissionList serializeNetworkPermission parseNetworkPermission rt_network)
    (fun pl => by intro hh; exact Yaml.noConfusion hh) n
  have h2 := rt_opt (serializePermissionList serializeStoragePermission)
    (parsePermissionList parseStoragePermission)
    (rt_permissionList serializeStoragePermission parseStoragePermission rt_storage)
    (fun pl => by intro hh; exact Yaml.noConfusion hh) s
  have h3 := rt_opt serializeEnvironmentPermissions parseEnvironmentPermissions
    rt_envPerms (fun ep => by intro hh; exact Yaml.noConfusion hh) e
  have h4 := rt_opt serializeResourceLimit parseResourceLimit
    rt_resource (fun rl => by intro hh; exact Yaml.noConfusion hh) r
  simp [serializePermissions, parsePermissions, h1, h2, h3, h4]

/-- Policy documents round-trip through the YAML model. -/
theorem rt_policy_document (d : PolicyDocument) :
    parse_policy_from_yaml (serialize_policy_to_yaml d) = some d := by
  obtain ⟨v, desc, perms⟩ := d
  have h1 : parseOptStr (serializeOptStr desc) = some desc := by cases desc <;> rfl
  simp [serialize_policy_to_yaml, parse_policy_from_yaml, h1, rt_permissions]

end Policy

namespace Policy

/-- C6 (counterexample): the inline block declaring a network host together
with resource limits (memory_bytes 1024) is valid and synthesizes
successfully, but the synthesized document carries no resources class at
all: the inline resources class is not mapped into the policy, refuting the
claimed mapping of each inline permission class. -/
theorem synthesize_resources_counterexample :
    (Manifest.InlinePermissions.validate
        ⟨some ⟨[⟨"api.example.com"⟩]⟩, none, none, some ⟨some 1024, none⟩⟩).isOk
        = true ∧
    synthesize_policy_from_inline
        ⟨some ⟨[⟨"api.example.com"⟩]⟩, none, none, some ⟨some 1024, none⟩⟩
        (some "c")
      = .ok (build_policy_from_inline
          ⟨some ⟨[⟨"api.example.com"⟩]⟩, none, none, some ⟨some 1024, none⟩⟩
          (some "c")) ∧
    (build_policy_from_inline
        ⟨some ⟨[⟨"api.example.com"⟩]⟩, none, none, some ⟨some 1024, none⟩⟩
        (some "c")).permissions.resources = none ∧
    claimC6ClassMapping
        ⟨some ⟨[⟨"api.example.com"⟩]⟩, none, none, some ⟨some 1024, none⟩⟩
        (build_policy_from_inline
          ⟨some ⟨[⟨"api.example.com"⟩]⟩, none, none, some ⟨some 1024, none⟩⟩
          (some "c"))
      = false := by
  refine ⟨rfl, rfl, rfl, by decide⟩

/-- C6 (amended): for every inline permission block that passes manifest
validation, synthesis is deterministic and succeeds, producing the document
built by the pure builder: version 1.0, an autogenerated description, the
network, storage and environment classes each mapped to the corresponding
allow list (with no deny entries), and no resources class (inline resource
limits are not carried over); the document round-trips through the YAML
model unchanged and passes policy validation. -/
theorem synthesize_policy_correct (inline : Manifest.InlinePermissions)
    (name : Option String)
    (hvalid : (inline.validate).isOk = true) :
    synthesize_policy_from_inline inline name
        = .ok (build_policy_from_inline inline name) ∧
    (build_policy_from_inline inline name).version = "1.0" ∧
    (build_policy_from_inline inline name).description
        = some ("Auto-generated policy for " ++ name.getD "component") ∧
    (build_policy_from_inline inline name).permissions.network
        = inline.network.map (fun np =>
            { allow := some (np.allow.map fun r =>
                NetworkPermission.host { host := r.host })
              deny := none }) ∧
    (build_policy_from_inline inline name).permissions.storage
        = inline.storage.map (fun sp =>
            { allow := some (sp.allow.map fun r =>
                { uri := r.uri
                  access := r.access.map fun a =>
                    match a with
                    | Manifest.AccessType.read => AccessType.read
                    | Manifest.AccessType.write => AccessType.write })
              deny := none }) ∧
    (build_policy_from_inline inline name).permissions.environment
        = inline.environment.map (fun ep =>
            { allow := some (ep.allow.map fun r => { key := r.key }) }) ∧
    (build_policy_from_inline inline name).permissions.resources = none ∧
    parse_policy_from_yaml
        (serialize_policy_to_yaml (build_policy_from_inline inline name))
        = some (build_policy_from_inline inline name) ∧
    (build_policy_from_inline inline name).validate = true := by
  obtain ⟨hcls, hnet, hsto, henv⟩ :=
    (Manifest.inlinePermissions_validate_isOk inline).mp hvalid
  have hstor : storageClassOk
      ((build_policy_from_inline inline name).permissions.storage) = true := by
    show storageClassOk (inline.storage.map fun sp =>
      { allow := some (sp.allow.map fun r =>
          { uri := r.uri
            access := r.access.map fun a =>
              match a with
              | Manifest.AccessType.read => AccessType.read
              | Manifest.AccessType.write => AccessType.write })
        deny := none }) = true
    cases hs : inline.storage with
    | none => rfl
    | some sp =>
      have hsp := hsto sp hs
      simp only [Option.map_some', storageClassOk, optItems, Option.getD,
        List.append_nil, List.all_eq_true]
      intro x hx
      obtain ⟨r, hr, rfl⟩ := List.mem_map.mp hx
      rw [Bool.and_eq_true]
      refine ⟨(hsp.2 r hr).1, ?_⟩
      have hacc := (hsp.2 r hr).2
      simp [List.isEmpty_iff]
      exact hacc
  have henvok : environmentClassOk
      ((build_policy_from_inline inline name).permissions.environment) = true := by
    show environmentClassOk (inline.environment.map fun ep =>
      { allow := some (ep.allow.map fun r => { key := r.key }) }) = true
    cases he : inline.environment with
    | none => rfl
    | some ep =>
      have hep := henv ep he
      simp only [Option.map_some', environmentClassOk, optItems, Option.getD,
        Bool.and_eq_true, List.all_eq_true]
      refine ⟨?_, ?_⟩
      · intro x hx
        obtain ⟨r, hr, rfl⟩ := List.mem_map.mp hx
        simpa using hep.2.1 r hr
      · have hkeys : (ep.allow.map fun r =>
            ({ key := r.key } : EnvironmentPermission)).map (fun p => p.key)
            = ep.allow.map fun r => r.key := by
          simp [List.map_map, Function.comp]
        simp [hkeys, hep.2.2]
  have hval : (build_policy_from_inline inline name).validate = true := by
    unfold PolicyDocument.validate
    rw [hstor, henvok]
    rfl
  refine ⟨?_, rfl, rfl, rfl, rfl, rfl, rfl, rt_policy_document _, hval⟩
  simp only [synthesize_policy_from_inline]
  rw [if_pos hval]

/-- C6w (witness): the amended synthesis theorem applied to a concrete valid
inline block with all three allow-list classes present. -/
theorem synthesize_policy_correct_witness :
    synthesize_policy_from_inline
        ⟨some ⟨[⟨"h"⟩]⟩, some ⟨[⟨"fs:///tmp", [Manifest.AccessType.read]⟩]⟩,
          some ⟨[⟨"K", none⟩]⟩, none⟩ (some "t")
      = .ok (build_policy_from_inline
          ⟨some ⟨[⟨"h"⟩]⟩, some ⟨[⟨"fs:///tmp", [Manifest.AccessType.read]⟩]⟩,
            some ⟨[⟨"K", none⟩]⟩, none⟩ (some "t")) ∧
    (build_policy_from_inline
        ⟨some ⟨[⟨"h"⟩]⟩, some ⟨[⟨"fs:///tmp", [Manifest.AccessType.read]⟩]⟩,
          some ⟨[⟨"K", none⟩]⟩, none⟩ (some "t")).validate = true :=
  ⟨(synthesize_policy_correct
      ⟨some ⟨[⟨"h"⟩]⟩, some ⟨[⟨"fs:///tmp", [Manifest.AccessType.read]⟩]⟩,
        some ⟨[⟨"K", none⟩]⟩, none⟩ (some "t") (by decide)).1,
   (synthesize_policy_correct
      ⟨some ⟨[⟨"h"⟩]⟩, some ⟨[⟨"fs:///tmp", [Manifest.AccessType.read]⟩]⟩,
        some ⟨[⟨"K", none⟩]⟩, none⟩ (some "t") (by decide)).2.2.2.2.2.2.2.2⟩

end Policy

namespace Hooks

/-- The one-step unfolding of runBefore at a cons cell. -/
theorem runBefore_cons (h : Hook) (rest : List Hook) (ctx : ToolCallContext) :
    runBefore (h :: rest) ctx
      = (match h.before ctx with
         | (ctx2, some e) => ([h.id], ctx2, some e)
         | (ctx2, none) =>
           if ctx2.blocked then ([h.id], ctx2, none)
           else (h.id :: (runBefore rest ctx2).1, (runBefore rest ctx2).2)) := rfl

/-- Unfolding runBefore at a failing hook. -/
theorem runBefore_cons_err (h : Hook) (rest : List Hook)
    (ctx ctxa : ToolCallContext) (e : ErrorData)
    (hb : h.before ctx = (ctxa, some e)) :
    runBefore (h :: rest) ctx = ([h.id], ctxa, some e) := by
  rw [runBefore_cons, hb]

/-- Unfolding runBefore at a blocking hook. -/
theorem runBefore_cons_blocked (h : Hook) (rest : List Hook)
    (ctx ctxa : ToolCallContext) (hb : h.before ctx = (ctxa, none))
    (hbl : ctxa.blocked = true) :
    runBefore (h :: rest) ctx = ([h.id], ctxa, none) := by
  rw [runBefore_cons, hb]
  show (if ctxa.blocked = true then ([h.id], ctxa, none)
    else ((h.id :: (runBefore rest ctxa).1, (runBefore rest ctxa).2) :
      List Nat × ToolCallContext × Option ErrorData)) = ([h.id], ctxa, none)
  rw [if_pos hbl]

/-- Unfolding runBefore at a hook that passes control on. -/
theorem runBefore_cons_ok (h : Hook) (rest : List Hook)
    (ctx ctxa : ToolCallContext) (hb : h.before ctx = (ctxa, none))
    (hbl : ctxa.blocked = false) :
    runBefore (h :: rest) ctx
      = (h.id :: (runBefore rest ctxa).1, (runBefore rest ctxa).2) := by
  rw [runBefore_cons, hb]
  show (if ctxa.blocked = true then ([h.id], ctxa, none)
    else ((h.id :: (runBefore rest ctxa).1, (runBefore rest ctxa).2) :
      List Nat × ToolCallContext × Option ErrorData))
    = (h.id :: (runBefore rest ctxa).1, (runBefore rest ctxa).2)
  rw [if_neg (by simp [hbl])]

/-- Inverting a clean traversal step: the hook succeeded, left the context
unblocked, and the remainder is clean from the context it produced. -/
theorem runsCleanly_cons_inv (h : Hook) (rest : List Hook)
    (ctx ctx1 : ToolCallContext)
    (hc : runsCleanly (h :: rest) ctx = some ctx1) :
    (h.before ctx).2 = none ∧ (h.before ctx).1.blocked = false ∧
      runsCleanly rest (h.before ctx).1 = some ctx1 := by
  unfold runsCleanly at hc
  cases hb : h.before ctx with
  | mk ctxa oe =>
    rw [hb] at hc
    cases oe with
    | some e =>
      have hc2 : (none : Option ToolCallContext) = some ctx1 := hc
      simp at hc2
    | none =>
      have hc2 : (if ctxa.blocked = true then none else runsCleanly rest ctxa)
          = some ctx1 := hc
      by_cases hbl : ctxa.blocked = true
      · rw [if_pos hbl] at hc2
        simp at hc2
      · rw [if_neg hbl] at hc2
        simp only [Bool.not_eq_true] at hbl
        exact ⟨rfl, hbl, hc2⟩

/-- A clean prefix traverses fully: appending a suffix continues iteration
from the reached context, with the prefix ids leading the trace. -/
theorem runBefore_append_of_clean (pre : List Hook) (ctx0 ctx1 : ToolCallContext)
    (h : runsCleanly pre ctx0 = some ctx1) (rest : List Hook) :
    runBefore (pre ++ rest) ctx0 =
      (pre.map Hook.id ++ (runBefore rest ctx1).1, (runBefore rest ctx1).2) := by
  induction pre generalizing ctx0 with
  | nil =>
    simp only [runsCleanly, Option.some.injEq] at h
    subst h
    simp
  | cons hk pre ih =>
    obtain ⟨hoe, hbl, hrec⟩ := runsCleanly_cons_inv hk pre ctx0 ctx1 h
    have hb : hk.before ctx0 = ((hk.before ctx0).1, none) := by
      rw [← hoe]
    rw [List.cons_append,
      runBefore_cons_ok hk (pre ++ rest) ctx0 (hk.before ctx0).1 hb hbl,
      ih (hk.before ctx0).1 hrec]
    simp

/-- A clean stack traverses fully with the insertion-order trace and no
error. -/
theorem runBefore_of_clean (stack : List Hook) (ctx0 ctx1 : ToolCallContext)
    (h : runsCleanly stack ctx0 = some ctx1) :
    runBefore stack ctx0 = (stack.map Hook.id, ctx1, none) := by
  have h2 := runBefore_append_of_clean stack ctx0 ctx1 h []
  simpa [runBefore] using h2

/-- A clean run never ends blocked (when it did not start blocked). -/
theorem runsCleanly_not_blocked (stack : List Hook) (ctx0 ctx1 : ToolCallContext)
    (h : runsCleanly stack ctx0 = some ctx1) (h0 : ctx0.blocked = false) :
    ctx1.blocked = false := by
  induction stack generalizing ctx0 with
  | nil =>
    simp only [runsCleanly, Option.some.injEq] at h
    subst h
    exact h0
  | cons hk rest ih =>
    obtain ⟨hoe, hbl, hrec⟩ := runsCleanly_cons_inv hk rest ctx0 ctx1 h
    exact ih (hk.before ctx0).1 hrec hbl

/-- The one-step unfolding of the after loop at a cons cell. -/
theorem runAfterList_cons (h : Hook) (rest : List Hook) (ctx : ToolResultContext) :
    runAfterList (h :: rest) ctx
      = (match h.after ctx with
         | (ctx2, some e) => ([h.id], ctx2, some e)
         | (ctx2, none) =>
           (h.id :: (runAfterList rest ctx2).1, (runAfterList rest ctx2).2)) := rfl

/-- Unfolding the after loop at a failing hook. -/
theorem runAfterList_cons_err (h : Hook) (rest : List Hook)
    (ctx ctxa : ToolResultContext) (e : ErrorData)
    (hb : h.after ctx = (ctxa, some e)) :
    runAfterList (h :: rest) ctx = ([h.id], ctxa, some e) := by
  rw [runAfterList_cons, hb]

/-- Unfolding the after loop at a succeeding hook. -/
theorem runAfterList_cons_ok (h : Hook) (rest : List Hook)
    (ctx ctxa : ToolResultContext) (hb : h.after ctx = (ctxa, none)) :
    runAfterList (h :: rest) ctx
      = (h.id :: (runAfterList rest ctxa).1, (runAfterList rest ctxa).2) := by
  rw [runAfterList_cons, hb]

/-- A failure-free after loop visits the whole list in order. -/
theorem runAfterList_trace_of_ok (l : List Hook) (ctx : ToolResultContext)
    (h : (runAfterList l ctx).2.2 = none) :
    (runAfterList l ctx).1 = l.map Hook.id := by
  induction l generalizing ctx with
  | nil => rfl
  | cons hk rest ih =>
    cases hb : hk.after ctx with
    | mk ctxa oe =>
      cases oe with
      | some e =>
        rw [runAfterList_cons_err hk rest ctx ctxa e hb] at h
        simp at h
      | none =>
        rw [runAfterList_cons_ok hk rest ctx ctxa hb] at h ⊢
        simp only at h
        simp [ih ctxa h]

/-- C1: if every hook before the blocking one runs cleanly and some hook
sets blocked with a recorded reason, the dispatcher visits exactly the
clean prefix and the blocking hook (later-inserted middlewares are not
visited), does not call the invocation engine, and returns a successful
response equal to the synthetic blocked result carrying the reason. -/
theorem call_tool_blocked_short_circuit (pre post : List Hook) (blocker : Hook)
    (engine : CallToolRequestParam → Except String CallToolResult)
    (params : CallToolRequestParam) (ctx1 ctx2 : ToolCallContext) (r : String)
    (hclean : runsCleanly pre (ToolCallContext.from_params params) = some ctx1)
    (hblock : blocker.before ctx1 = (ctx2, none))
    (hb : ctx2.blocked = true) (hr : ctx2.block_reason = some r) :
    (call_tool (pre ++ blocker :: post) engine params).beforeTrace
        = pre.map Hook.id ++ [blocker.id] ∧
    (call_tool (pre ++ blocker :: post) engine params).engineCalled = false ∧
    (call_tool (pre ++ blocker :: post) engine params).response
        = .ok (blocked_result r) ∧
    blocked_result r
        = { content := [{ text := "Tool call blocked: " ++ r }]
            structured_content := none
            is_error := some true
            meta := none } := by
  have hrb : runBefore (pre ++ blocker :: post) (ToolCallContext.from_params params)
      = (pre.map Hook.id ++ [blocker.id], ctx2, none) := by
    rw [runBefore_append_of_clean pre _ ctx1 hclean (blocker :: post),
      runBefore_cons_blocked blocker post ctx1 ctx2 hblock hb]
  have hout : call_tool (pre ++ blocker :: post) engine params =
      { beforeTrace := pre.map Hook.id ++ [blocker.id], afterTrace := [],
        engineCalled := false, engineParams := none,
        cloneCount := ctx2.clone_count,
        response := .ok (blocked_result r) } := by
    simp only [call_tool, hrb]
    simp [hb, hr]
  rw [hout]
  exact ⟨rfl, rfl, rfl, rfl⟩

/-- C2: when no before hook blocks or fails, the before hooks are visited
exactly in insertion order; when additionally the engine returns a result
and no after hook fails, the after hooks are visited exactly in reverse
insertion order.  Both traces are fixed lists determined by the stack. -/
theorem call_tool_hook_order (stack : List Hook)
    (engine : CallToolRequestParam → Except String CallToolResult)
    (params : CallToolRequestParam) (ctx1 : ToolCallContext) (res : CallToolResult)
    (hclean : runsCleanly stack (ToolCallContext.from_params params) = some ctx1)
    (heng : engine (ctx1.into_params params) = .ok res)
    (hafter : (runAfter stack { tool_name := ctx1.tool_name, result := res, metadata := ctx1.metadata, duration := 0 }).2.2 = none) :
    (call_tool stack engine params).beforeTrace = stack.map Hook.id ∧
    (call_tool stack engine params).afterTrace = (stack.map Hook.id).reverse := by
  have hnb := runsCleanly_not_blocked stack _ ctx1 hclean rfl
  have hrb := runBefore_of_clean stack _ ctx1 hclean
  have htr : (runAfter stack { tool_name := ctx1.tool_name, result := res, metadata := ctx1.metadata, duration := 0 }).1 = (stack.map Hook.id).reverse := by
    unfold runAfter at hafter ⊢
    rw [runAfterList_trace_of_ok _ _ hafter]
    simp
  constructor
  · simp only [call_tool, hrb]
    simp [hnb, heng]
  · simp only [call_tool, hrb]
    simp [hnb, heng, htr]

/-- C8: when the engine produced a result, the dispatcher always answers
with a successful response carrying the result as transformed in place by
the after hooks that ran — in particular, when some after hook fails, the
failure is dropped and the (partially transformed) result is still returned
as a success, never replaced by the hook error. -/
theorem call_tool_after_failure_dropped (stack : List Hook)
    (engine : CallToolRequestParam → Except String CallToolResult)
    (params : CallToolRequestParam) (ctx1 : ToolCallContext) (res : CallToolResult)
    (hclean : runsCleanly stack (ToolCallContext.from_params params) = some ctx1)
    (heng : engine (ctx1.into_params params) = .ok res) :
    (call_tool stack engine params).response
        = .ok ((runAfter stack { tool_name := ctx1.tool_name, result := res, metadata := ctx1.metadata, duration := 0 }).2.1).result ∧
    ∀ e, (runAfter stack { tool_name := ctx1.tool_name, result := res, metadata := ctx1.metadata, duration := 0 }).2.2 = some e →
      (call_tool stack engine params).response
          = .ok ((runAfter stack { tool_name := ctx1.tool_name, result := res, metadata := ctx1.metadata, duration := 0 }).2.1).result := by
  have hnb := runsCleanly_not_blocked stack _ ctx1 hclean rfl
  have hrb := runBefore_of_clean stack _ ctx1 hclean
  have hmain : (call_tool stack engine params).response
      = .ok ((runAfter stack { tool_name := ctx1.tool_name, result := res, metadata := ctx1.metadata, duration := 0 }).2.1).result := by
    simp only [call_tool, hrb]
    simp [hnb, heng]
  exact ⟨hmain, fun _ _ => hmain⟩

/-- A hook body that never invokes the mutable accessor leaves the
modified flag and clone counter untouched. -/
theorem runActions_no_mut (acts : List BeforeAction) (ctx : ToolCallContext)
    (h : usesMutAccessor acts = false) :
    (runActions acts ctx).1.arguments_modified = ctx.arguments_modified ∧
    (runActions acts ctx).1.clone_count = ctx.clone_count := by
  induction acts generalizing ctx with
  | nil => exact ⟨rfl, rfl⟩
  | cons a rest ih =>
    cases a with
    | readArgs => exact ih ctx h
    | mutateArgs f => simp [usesMutAccessor] at h
    | setMeta k v => exact ih _ h
    | blockWith reason => exact ⟨rfl, rfl⟩
    | failWith msg => exact ⟨rfl, rfl⟩

/-- A before phase made of hooks that never invoke the mutable accessor
leaves the modified flag and clone counter of the context untouched. -/
theorem runBefore_no_mut (ahooks : List (Nat × List BeforeAction))
    (ctx : ToolCallContext)
    (h : ∀ p ∈ ahooks, usesMutAccessor p.2 = false) :
    ((runBefore (ahooks.map fun p => Hook.ofActions p.1 p.2) ctx).2.1.arguments_modified
        = ctx.arguments_modified) ∧
    ((runBefore (ahooks.map fun p => Hook.ofActions p.1 p.2) ctx).2.1.clone_count
        = ctx.clone_count) := by
  induction ahooks generalizing ctx with
  | nil => exact ⟨rfl, rfl⟩
  | cons p rest ih =>
    have hp := h p (List.mem_cons_self _ _)
    have hrest : ∀ q ∈ rest, usesMutAccessor q.2 = false :=
      fun q hq => h q (List.mem_cons_of_mem _ hq)
    have hb := runActions_no_mut p.2 ctx hp
    simp only [List.map_cons]
    cases hra : runActions p.2 ctx with
    | mk ctxa oe =>
      rw [hra] at hb
      have hbore : (Hook.ofActions p.1 p.2).before ctx = (ctxa, oe) := hra
      cases oe with
      | some e =>
        rw [runBefore_cons_err _ _ ctx ctxa e hbore]
        exact hb
      | none =>
        by_cases hbl : ctxa.blocked = true
        · rw [runBefore_cons_blocked _ _ ctx ctxa hbore hbl]
          exact hb
        · rw [runBefore_cons_ok _ _ ctx ctxa hbore (by simpa using hbl)]
          have hr := ih ctxa hrest
          exact ⟨hb.1 ▸ hr.1, hb.2 ▸ hr.2⟩

/-- The dispatcher's clone counter is the before-phase context's. -/
theorem call_tool_cloneCount (hooks : List Hook)
    (engine : CallToolRequestParam → Except String CallToolResult)
    (params : CallToolRequestParam) :
    (call_tool hooks engine params).cloneCount
      = (runBefore hooks (ToolCallContext.from_params params)).2.1.clone_count := by
  simp only [call_tool]
  cases herr : (runBefore hooks (ToolCallContext.from_params params)).2.2 with
  | some e => simp [herr]
  | none =>
    by_cases hbl : (runBefore hooks (ToolCallContext.from_params params)).2.1.blocked = true
    · simp [herr, hbl]
    · cases heng : engine ((runBefore hooks
          (ToolCallContext.from_params params)).2.1.into_params params) with
      | ok res => simp [herr, hbl, heng]
      | error e2 => simp [herr, hbl, heng]

/-- When the engine ran, the params it received are the before-phase
context's into_params. -/
theorem call_tool_engineParams (hooks : List Hook)
    (engine : CallToolRequestParam → Except String CallToolResult)
    (params : CallToolRequestParam)
    (hcall : (call_tool hooks engine params).engineCalled = true) :
    (call_tool hooks engine params).engineParams
      = some ((runBefore hooks
          (ToolCallContext.from_params params)).2.1.into_params params) := by
  simp only [call_tool] at hcall ⊢
  cases herr : (runBefore hooks (ToolCallContext.from_params params)).2.2 with
  | some e => simp [herr] at hcall
  | none =>
    by_cases hbl : (runBefore hooks (ToolCallContext.from_params params)).2.1.blocked = true
    · simp [herr, hbl] at hcall
    · cases heng : engine ((runBefore hooks
          (ToolCallContext.from_params params)).2.1.into_params params) with
      | ok res => simp [herr, hbl, heng]
      | error e2 => simp [herr, hbl, heng]

/-- C9: when no before hook invokes the mutable accessor, the params
forwarded to the engine are the original request params unchanged and no
clone of the argument map is made (clone count 0); independently, the first
mutable access on an unmodified context performs exactly one clone, and
further accesses perform none. -/
theorem call_tool_cow (ahooks : List (Nat × List BeforeAction))
    (engine : CallToolRequestParam → Except String CallToolResult)
    (params : CallToolRequestParam)
    (hnomut : ∀ p ∈ ahooks, usesMutAccessor p.2 = false) :
    ((call_tool (ahooks.map fun p => Hook.ofActions p.1 p.2) engine params).engineCalled
        = true →
      (call_tool (ahooks.map fun p => Hook.ofActions p.1 p.2) engine params).engineParams
        = some params) ∧
    (call_tool (ahooks.map fun p => Hook.ofActions p.1 p.2) engine params).cloneCount
        = 0 ∧
    (∀ ctx : ToolCallContext, ctx.arguments_modified = false →
      ctx.argumentsMutTouch.clone_count = ctx.clone_count + 1 ∧
      ctx.argumentsMutTouch.argumentsMutTouch = ctx.argumentsMutTouch) := by
  have hinv := runBefore_no_mut ahooks (ToolCallContext.from_params params) hnomut
  have hmod : (runBefore (ahooks.map fun p => Hook.ofActions p.1 p.2)
      (ToolCallContext.from_params params)).2.1.arguments_modified = false := by
    rw [hinv.1]
    rfl
  have hip : (runBefore (ahooks.map fun p => Hook.ofActions p.1 p.2)
      (ToolCallContext.from_params params)).2.1.into_params params = params := by
    unfold ToolCallContext.into_params
    rw [if_neg (by simp [hmod])]
  refine ⟨?_, ?_, ?_⟩
  · intro hcall
    rw [call_tool_engineParams _ engine params hcall, hip]
  · rw [call_tool_cloneCount, hinv.2]
    rfl
  · intro ctx h
    constructor
    · simp [ToolCallContext.argumentsMutTouch, h]
    · simp [ToolCallContext.argumentsMutTouch, h]

/-- C1w (witness): the short-circuit theorem applied to the stack
[nop, block "nope", nop]: the trace is [1, 2], the engine is not called, and
the response is the synthetic blocked result. -/
theorem call_tool_blocked_short_circuit_witness :
    (call_tool
        ([Hook.ofActions 1 []] ++ Hook.ofActions 2 [.blockWith "nope"]
          :: [Hook.ofActions 3 []])
        (fun _ => .ok { content := [], structured_content := none,
                        is_error := none, meta := none })
        ⟨"foo", none⟩).beforeTrace = [1, 2] ∧
    (call_tool
        ([Hook.ofActions 1 []] ++ Hook.ofActions 2 [.blockWith "nope"]
          :: [Hook.ofActions 3 []])
        (fun _ => .ok { content := [], structured_content := none,
                        is_error := none, meta := none })
        ⟨"foo", none⟩).engineCalled = false ∧
    (call_tool
        ([Hook.ofActions 1 []] ++ Hook.ofActions 2 [.blockWith "nope"]
          :: [Hook.ofActions 3 []])
        (fun _ => .ok { content := [], structured_content := none,
                        is_error := none, meta := none })
        ⟨"foo", none⟩).response = .ok (blocked_result "nope") := by
  have h := call_tool_blocked_short_circuit [Hook.ofActions 1 []]
    [Hook.ofActions 3 []] (Hook.ofActions 2 [.blockWith "nope"])
    (fun _ => .ok { content := [], structured_content := none,
                    is_error := none, meta := none })
    ⟨"foo", none⟩
    (ToolCallContext.from_params ⟨"foo", none⟩)
    ((ToolCallContext.from_params ⟨"foo", none⟩).block "nope") "nope"
    rfl rfl rfl rfl
  exact ⟨h.1, h.2.1, h.2.2.1⟩

/-- C2w (witness): the ordering theorem applied to a two-hook stack: before
visit order [1, 2], after visit order [2, 1]. -/
theorem call_tool_hook_order_witness :
    (call_tool [Hook.ofActions 1 [], Hook.ofActions 2 []]
        (fun _ => .ok { content := [], structured_content := none,
                        is_error := none, meta := none })
        ⟨"t", none⟩).beforeTrace = [1, 2] ∧
    (call_tool [Hook.ofActions 1 [], Hook.ofActions 2 []]
        (fun _ => .ok { content := [], structured_content := none,
                        is_error := none, meta := none })
        ⟨"t", none⟩).afterTrace = [2, 1] := by
  have h := call_tool_hook_order [Hook.ofActions 1 [], Hook.ofActions 2 []]
    (fun _ => .ok { content := [], structured_content := none,
                    is_error := none, meta := none })
    ⟨"t", none⟩ (ToolCallContext.from_params ⟨"t", none⟩)
    { content := [], structured_content := none, is_error := none, meta := none }
    rfl rfl rfl
  exact ⟨h.1, h.2⟩

/-- C8w (witness): a stack whose first-inserted hook fails in the after
phase and whose second-inserted hook transforms the result in the after
phase: the transformation (run first, in reverse order) is kept and the
failure is dropped; the response is still a success. -/
theorem call_tool_after_failure_dropped_witness :
    (call_tool
        [{ id := 1, before := fun c => (c, none),
           after := fun c => (c, some { message := "boom" }) },
         { id := 2, before := fun c => (c, none),
           after := fun c =>
             ({ c with result := { content := [{ text := "transformed" }],
                                   structured_content := none,
                                   is_error := some false, meta := none } }, none) }]
        (fun _ => .ok { content := [{ text := "raw" }], structured_content := none,
                        is_error := none, meta := none })
        ⟨"t", none⟩).response
      = .ok { content := [{ text := "transformed" }], structured_content := none,
              is_error := some false, meta := none } :=
  (call_tool_after_failure_dropped
    [{ id := 1, before := fun c => (c, none),
       after := fun c => (c, some { message := "boom" }) },
     { id := 2, before := fun c => (c, none),
       after := fun c =>
         ({ c with result := { content := [{ text := "transformed" }],
                               structured_content := none,
                               is_error := some false, meta := none } }, none) }]
    (fun _ => .ok { content := [{ text := "raw" }], structured_content := none,
                    is_error := none, meta := none })
    ⟨"t", none⟩ (ToolCallContext.from_params ⟨"t", none⟩)
    { content := [{ text := "raw" }], structured_content := none,
      is_error := none, meta := none }
    rfl rfl).1

/-- C9w (witness): the copy-on-write theorem applied to read-only hooks: the
engine receives the original params and the clone count is zero. -/
theorem call_tool_cow_witness :
    (call_tool
        ([(1, [BeforeAction.readArgs]),
          (2, [BeforeAction.setMeta "k" "v"])].map fun p => Hook.ofActions p.1 p.2)
        (fun _ => .ok { content := [], structured_content := none,
                        is_error := none, meta := none })
        ⟨"t", some [("a", "1")]⟩).engineParams = some ⟨"t", some [("a", "1")]⟩ ∧
    (call_tool
        ([(1, [BeforeAction.readArgs]),
          (2, [BeforeAction.setMeta "k" "v"])].map fun p => Hook.ofActions p.1 p.2)
        (fun _ => .ok { content := [], structured_content := none,
                        is_error := none, meta := none })
        ⟨"t", some [("a", "1")]⟩).cloneCount = 0 := by
  have h := call_tool_cow
    [(1, [BeforeAction.readArgs]), (2, [BeforeAction.setMeta "k" "v"])]
    (fun _ => .ok { content := [], structured_content := none,
                    is_error := none, meta := none })
    ⟨"t", some [("a", "1")]⟩
    (by intro p hp
        rcases List.mem_cons.mp hp with rfl | hp2
        · rfl
        · rw [List.mem_singleton.mp hp2]
          rfl)

  exact ⟨h.1 rfl, h.2.1⟩

end Hooks

namespace Polis

/-- C10: when any middleware's on_list_tools fails, the server still
responds with success and returns the registry's original tool list,
discarding every mutation the chain made (including those of middlewares
that succeeded before the failing one); when the whole chain succeeds, the
context's transformed tools are returned. -/
theorem list_tools_failure_keeps_original (chain : List Middleware)
    (registry_tools : List Tool) :
    (∀ e, (run_on_list_tools chain (ToolListContext.new registry_tools)).2 = some e →
      list_tools chain registry_tools = .ok { tools := registry_tools }) ∧
    ((run_on_list_tools chain (ToolListContext.new registry_tools)).2 = none →
      list_tools chain registry_tools
        = .ok { tools :=
            (run_on_list_tools chain (ToolListContext.new registry_tools)).1.tools }) := by
  constructor
  · intro e he
    simp only [list_tools]
    rw [he]
  · intro hn
    simp only [list_tools]
    rw [hn]

/-- C10w (witness): a chain whose first middleware filters out a tool and
whose second fails: the response carries the original unfiltered registry
list. -/
theorem list_tools_failure_keeps_original_witness :
    list_tools
        [{ id := 1, on_list_tools := fun c =>
             ({ c with tools := c.tools.filter fun t => t.name != "b" }, none) },
         { id := 2, on_list_tools := fun c =>
             (c, some { message := "fail", is_client_error := true }) }]
        [{ name := "a", description := none }, { name := "b", description := none }]
      = .ok { tools := [{ name := "a", description := none },
                        { name := "b", description := none }] } :=
  (list_tools_failure_keeps_original
    [{ id := 1, on_list_tools := fun c =>
         ({ c with tools := c.tools.filter fun t => t.name != "b" }, none) },
     { id := 2, on_list_tools := fun c =>
         (c, some { message := "fail", is_client_error := true }) }]
    [{ name := "a", description := none }, { name := "b", description := none }]).1
    { message := "fail", is_client_error := true } rfl

end Polis
